import Mathlib

/-!
Verification of the lespetitsvendredis static-site generator and crawler.

Strings are modelled as `List Char` (`Str`).  JavaScript string operations
(`trim`, `split`, `replace`, `parseInt`, `lastIndexOf`, ...) are embedded as
executable Lean functions.  The DOM manipulation performed through the
node-html-parser library is modelled by a rose tree of nodes carrying unique
numeric ids; loops of the form `for (el of root.querySelectorAll(sel))` are
modelled by taking a snapshot of the matching node ids and folding a
per-node action over the snapshot, where an action on a node that has been
detached from the tree in the meantime is a no-op.
-/

set_option maxHeartbeats 1000000
set_option maxRecDepth 100000
set_option linter.unnecessarySeqFocus false

abbrev Str := List Char

/-- JavaScript whitespace characters (the ones relevant here). -/
def isJsWs (c : Char) : Bool :=
  c = ' ' || c = '\t' || c = '\n' || c = '\r' || c = '\x0b' || c = '\x0c'

/-- JavaScript `String.prototype.trim`: drop leading and trailing whitespace. -/
def jsTrim (s : Str) : Str :=
  (s.dropWhile isJsWs).reverse.dropWhile isJsWs |>.reverse

/-- Fuel-driven whitespace tokenizer (structural). -/
def splitWsF : Nat → Str → List Str
  | 0, _ => []
  | fuel + 1, s =>
    let s1 := s.dropWhile isJsWs
    match s1 with
    | [] => []
    | _ :: _ =>
      let tok := s1.takeWhile (fun c => !isJsWs c)
      tok :: splitWsF fuel (s1.drop tok.length)

/-- Split on runs of whitespace, dropping empty pieces (the effect of
`str.trim().split(/\s+/)` on a string with at least one token). -/
def splitWs (s : Str) : List Str := splitWsF (s.length + 1) s

/-- Does `pat` occur starting at the head of `s`? -/
def startsWith (pat s : Str) : Bool :=
  List.isPrefixOf pat s

/-- JavaScript `str.replace(pat, rep)` with a plain-string pattern:
replace only the first occurrence. -/
def replaceFirst (pat rep s : Str) : Str :=
  if pat = [] then rep ++ s
  else match s with
  | [] => []
  | c :: cs => if startsWith pat s then rep ++ s.drop pat.length
               else c :: replaceFirst pat rep cs

/-- Fuel-driven body of `replaceAllStr` (structural, so that the kernel can
evaluate it; fuel at least the length of the string suffices). -/
def replaceAllFuel (pat rep : Str) : Nat → Str → Str
  | 0, s => s
  | _, [] => []
  | fuel + 1, c :: cs =>
    if startsWith pat (c :: cs) then
      rep ++ replaceAllFuel pat rep fuel (cs.drop (pat.length - 1))
    else
      c :: replaceAllFuel pat rep fuel cs

/-- JavaScript `str.replace(/pat/g, rep)` with a plain-string pattern:
replace every (leftmost, non-overlapping) occurrence. -/
def replaceAllStr (pat rep s : Str) : Str :=
  if pat = [] then s else replaceAllFuel pat rep (s.length + 1) s

/-- Membership of a character in a string. -/
def hasChar (c : Char) (s : Str) : Bool := s.contains c

/-- Count occurrences of a character. -/
def countChar (c : Char) (s : Str) : Nat := s.count c

/-- Index (from the left) of the last occurrence of `c` in `s`, if any:
JavaScript `str.lastIndexOf(c)` restricted to single-character needles. -/
def lastIdxOf (c : Char) (s : Str) : Option Nat :=
  match s with
  | [] => none
  | a :: rest =>
    match lastIdxOf c rest with
    | some i => some (i + 1)
    | none => if a = c then some 0 else none

/-- Fuel-driven decimal-digit expansion (structural; fuel at least the
number of digits suffices). -/
def natDigitsF : Nat → Nat → Str
  | 0, _ => []
  | fuel + 1, n =>
    if n < 10 then [Char.ofNat (48 + n)]
    else natDigitsF fuel (n / 10) ++ [Char.ofNat (48 + n % 10)]

/-- Decimal digits of a natural number, most significant first. -/
def natDigits (n : Nat) : Str := natDigitsF (n + 1) n

/-- JavaScript number-to-string for integers. -/
def intToStr (n : Int) : Str :=
  if n < 0 then '-' :: natDigits n.natAbs else natDigits n.natAbs

def isDigit (c : Char) : Bool := '0' ≤ c ∧ c ≤ '9'

def digitVal (c : Char) : Nat := c.toNat - 48

/-- Accumulate a run of decimal digits, left to right. -/
def readDigits (acc : Nat) (s : Str) : Nat × Str :=
  match s with
  | [] => (acc, [])
  | c :: cs => if isDigit c then readDigits (acc * 10 + digitVal c) cs else (acc, s)

/-- JavaScript `parseInt(s, 10)`: skip leading whitespace, optional sign,
then a run of decimal digits; `none` models `NaN`.  Trailing garbage is
ignored. -/
def parseIntJS (s : Str) : Option Int :=
  let t := s.dropWhile isJsWs
  match t with
  | [] => none
  | c :: cs =>
    if c = '-' then
      match cs with
      | [] => none
      | d :: _ => if isDigit d then some (-(readDigits 0 cs).1) else none
    else if c = '+' then
      match cs with
      | [] => none
      | d :: _ => if isDigit d then some ((readDigits 0 cs).1 : Int) else none
    else if isDigit c then some ((readDigits 0 t).1 : Int)
    else none

/-- `node:path` `basename`: drop trailing slashes, then take the part after
the last remaining slash. -/
def basename (s : Str) : Str :=
  let t := s.reverse.dropWhile (· = '/')
  if t = [] then (if s = [] then [] else ['/'])
  else (t.takeWhile (· ≠ '/')).reverse

/-- JavaScript `s.split("?")[0]`: the part before the first question mark. -/
def beforeQuery (s : Str) : Str := s.takeWhile (· ≠ '?')

/-- A `\w` character: ASCII letter, digit or underscore. -/
def isWordChar (c : Char) : Bool :=
  ('a' ≤ c && c ≤ 'z') || ('A' ≤ c && c ≤ 'Z') || isDigit c || c = '_'

/-- `name.replace(/[^\w\-_.]/g, "_")`. -/
def sanitizeChars (s : Str) : Str :=
  s.map (fun c => if isWordChar c || c = '-' || c = '.' then c else '_')

/-- ASCII lowercasing (the French month names in the fixed table are already
lowercase, and `Char.toLower` agrees with JavaScript `toLowerCase` on the
ASCII range). -/
def lowerStr (s : Str) : Str := s.map Char.toLower

/-!
## JavaScript `Date` model

`new Date(year, month, day)` normalizes its arguments through the proleptic
Gregorian calendar (with the legacy remapping of years 0..99 to 1900..1999)
and stores a millisecond timestamp; the getters recover the civil triple.
We model a date directly as the normalized civil triple, using the standard
`days_from_civil` / `civil_from_days` conversions for out-of-range day
numbers, and take the local time zone to be UTC. -/

def isLeapYear (y : Int) : Bool :=
  y % 4 = 0 && (y % 100 ≠ 0 || y % 400 = 0)

def daysInMonth (y m : Int) : Int :=
  if m = 1 then 31
  else if m = 2 then (if isLeapYear y then 29 else 28)
  else if m = 3 then 31
  else if m = 4 then 30
  else if m = 5 then 31
  else if m = 6 then 30
  else if m = 7 then 31
  else if m = 8 then 31
  else if m = 9 then 30
  else if m = 10 then 31
  else if m = 11 then 30
  else 31

/-- Days from 1970-01-01 to the civil date `y-m-d` (Hinnant's
`days_from_civil`, months 1..12). -/
def daysFromCivil (y m d : Int) : Int :=
  let y' := if m ≤ 2 then y - 1 else y
  let era : Int := (if y' ≥ 0 then y' else y' - 399) / 400
  let yoe : Int := y' - era * 400
  let mp : Int := (m + 9) % 12
  let doy : Int := (153 * mp + 2) / 5 + d - 1
  let doe : Int := yoe * 365 + yoe / 4 - yoe / 100 + doy
  era * 146097 + doe - 719468

/-- Civil date from a day count relative to 1970-01-01 (Hinnant's
`civil_from_days`). -/
def civilFromDays (z0 : Int) : Int × Int × Int :=
  let z := z0 + 719468
  let era : Int := (if z ≥ 0 then z else z - 146096) / 146097
  let doe : Int := z - era * 146097
  let yoe : Int := (doe - doe / 1460 + doe / 36524 - doe / 146096) / 365
  let y : Int := yoe + era * 400
  let doy : Int := doe - (365 * yoe + yoe / 4 - yoe / 100)
  let mp : Int := (5 * doy + 2) / 153
  let d : Int := doy - (153 * mp + 2) / 5 + 1
  let m : Int := if mp < 10 then mp + 3 else mp - 9
  (if m ≤ 2 then y + 1 else y, m, d)

/-- A (normalized) JavaScript `Date`: year, month 1..12, day 1..31. -/
structure JsDate where
  year : Int
  month : Int
  day : Int
deriving DecidableEq, Repr

/-- `new Date(year, monthIndex, day)` (with `monthIndex` 0-based, as in the
source's `new Date(year, month - 1, day)` call sites we pass the 1-based
month).  Years 0..99 are remapped to 1900..1999; the month is first folded
into the year; an out-of-range day rolls over through the calendar. -/
def mkJsDate (year month day : Int) : JsDate :=
  let y0 := if 0 ≤ year && year ≤ 99 then year + 1900 else year
  let mi := month - 1
  let y1 := y0 + (if mi ≥ 0 then mi / 12 else -((11 - mi) / 12))
  let m1 := (mi % 12 + 12) % 12 + 1
  if 1 ≤ day && day ≤ daysInMonth y1 m1 then
    ⟨y1, m1, day⟩
  else
    let (y, m, d) := civilFromDays (daysFromCivil y1 m1 1 + (day - 1))
    ⟨y, m, d⟩

/-- `Date.prototype.getTime`, in milliseconds since the epoch (time zone
taken as UTC; the source only constructs midnight dates). -/
def getTime (dt : JsDate) : Int :=
  daysFromCivil dt.year dt.month dt.day * 86400000

/-!
## French date helpers (`parseFrenchDate`, `formatDate`)
-/

/-- The fixed French month table, in insertion order (month 1 first). -/
def FRENCH_MONTHS : List (Int × Str) :=
  [ (1, "janvier".data), (2, "février".data), (3, "mars".data),
    (4, "avril".data), (5, "mai".data), (6, "juin".data),
    (7, "juillet".data), (8, "août".data), (9, "septembre".data),
    (10, "octobre".data), (11, "novembre".data), (12, "décembre".data) ]

/-- `FRENCH_MONTHS[n] ?? ""`. -/
def frenchMonthName (n : Int) : Str :=
  match FRENCH_MONTHS.find? (fun p => p.1 = n) with
  | some p => p.2
  | none => []

/-- Exact lookup `FRENCH_MONTH_TO_NUM[monthStr] ?? 0`. -/
def monthExact (monthStr : Str) : Int :=
  match FRENCH_MONTHS.find? (fun p => p.2 = monthStr) with
  | some p => p.1
  | none => 0

/-- The fuzzy fallback: first table entry whose name's first three
characters are a prefix of `monthStr`. -/
def monthFuzzy (monthStr : Str) : Int :=
  match FRENCH_MONTHS.find? (fun p => startsWith (p.2.take 3) monthStr) with
  | some p => p.1
  | none => 0

/-- `parseFrenchDate` from the generator source. -/
def parseFrenchDate (dateStr : Str) : Option JsDate :=
  if dateStr = [] then none
  else
    let parts := splitWs (jsTrim dateStr)
    if parts.length < 3 then none
    else
      let day := parseIntJS (parts.getD 0 [])
      let monthStr := lowerStr (parts.getD 1 [])
      let m0 := monthExact monthStr
      let month := if m0 = 0 then monthFuzzy monthStr else m0
      let year := parseIntJS (parts.getD 2 [])
      match day, year with
      | some d, some y =>
        if d = 0 || month = 0 || y = 0 then none
        else some (mkJsDate y month d)
      | _, _ => none

/-- `formatDate` from the generator source. -/
def formatDate (dt : Option JsDate) : Str :=
  match dt with
  | none => []
  | some dt =>
    intToStr dt.day ++ " ".data ++ frenchMonthName dt.month
      ++ " ".data ++ intToStr dt.year

/-!
## HTML document model

The generator manipulates HTML through the node-html-parser library (a
dependency, not part of this repository), whose behaviour we model with a
rose tree.  Every node carries a unique numeric id assigned in document
order by the parser; `for`-loops over `querySelectorAll` results are
modelled as a fold over the snapshot of matching ids, where the action on an
id that is no longer attached to the tree is a no-op (a detached node's
mutation is invisible in the serialized output).  HTML entity decoding in
`.text` is not modelled; none of the verified properties depend on it. -/

mutual
inductive HTree where
  | text (id : Nat) (s : Str)
  | elem (id : Nat) (tag : Str) (attrs : List (Str × Str)) (kids : HForest)
inductive HForest where
  | nil
  | cons (hd : HTree) (tl : HForest)
end

def attrKey (attrs : List (Str × Str)) (k : Str) : Option Str :=
  (attrs.find? (fun p => p.1 = k)).map (fun p => p.2)

/-- `setAttribute`: update in place if the key exists, else append. -/
def setAttrL (attrs : List (Str × Str)) (k v : Str) : List (Str × Str) :=
  if (attrs.find? (fun p => p.1 = k)).isSome then
    attrs.map (fun p => if p.1 = k then (k, v) else p)
  else attrs ++ [(k, v)]

/-- `removeAttribute`. -/
def removeAttrL (attrs : List (Str × Str)) (k : Str) : List (Str × Str) :=
  attrs.filter (fun p => p.1 ≠ k)

/-- Substring test (used for the share-widget class regexes and
`url.includes("attachment_id")`). -/
def containsStr (pat s : Str) : Bool :=
  if startsWith pat s then true
  else match s with
  | [] => false
  | _ :: cs => containsStr pat cs

mutual
def idsT : HTree → List Nat
  | .text i _ => [i]
  | .elem i _ _ kids => i :: idsF kids
def idsF : HForest → List Nat
  | .nil => []
  | .cons h t => idsT h ++ idsF t
end

def present (f : HForest) (i : Nat) : Bool := (idsF f).contains i

mutual
def findNodeT (t : HTree) (i : Nat) : Option HTree :=
  match t with
  | .text j s => if j = i then some (.text j s) else none
  | .elem j tag attrs kids =>
    if j = i then some (.elem j tag attrs kids) else findNodeF kids i
def findNodeF (f : HForest) (i : Nat) : Option HTree :=
  match f with
  | .nil => none
  | .cons h t =>
    match findNodeT h i with
    | some n => some n
    | none => findNodeF t i
end

-- Remove every node with id `i` (ids are unique in practice).
mutual
def removeIdT (t : HTree) (i : Nat) : Option HTree :=
  match t with
  | .text j s => if j = i then none else some (.text j s)
  | .elem j tag attrs kids =>
    if j = i then none else some (.elem j tag attrs (removeIdF kids i))
def removeIdF (f : HForest) (i : Nat) : HForest :=
  match f with
  | .nil => .nil
  | .cons h t =>
    match removeIdT h i with
    | some h2 => .cons h2 (removeIdF t i)
    | none => removeIdF t i
end

-- Apply `g` to the attribute list of the node with id `i`.
mutual
def editAttrsT (t : HTree) (i : Nat) (g : List (Str × Str) → List (Str × Str)) :
    HTree :=
  match t with
  | .text j s => .text j s
  | .elem j tag attrs kids =>
    if j = i then .elem j tag (g attrs) (editAttrsF kids i g)
    else .elem j tag attrs (editAttrsF kids i g)
def editAttrsF (f : HForest) (i : Nat) (g : List (Str × Str) → List (Str × Str)) :
    HForest :=
  match f with
  | .nil => .nil
  | .cons h t => .cons (editAttrsT h i g) (editAttrsF t i g)
end

-- `replaceWith`: replace the node with id `i` by the tree `n`.
mutual
def replaceAtT (t : HTree) (i : Nat) (n : HTree) : HTree :=
  match t with
  | .text j s => if j = i then n else .text j s
  | .elem j tag attrs kids =>
    if j = i then n else .elem j tag attrs (replaceAtF kids i n)
def replaceAtF (f : HForest) (i : Nat) (n : HTree) : HForest :=
  match f with
  | .nil => .nil
  | .cons h t => .cons (replaceAtT h i n) (replaceAtF t i n)
end

-- `.text`: concatenated text content of a subtree.
mutual
def textT : HTree → Str
  | .text _ s => s
  | .elem _ _ _ kids => textF kids
def textF : HForest → Str
  | .nil => []
  | .cons h t => textT h ++ textF t
end

/-- A CSS selector of the restricted form `tag` or `tag.class` (the only
forms the generator uses); a selector list models `"p, div"` etc. -/
abbrev Sel := Str × Option Str

def matchesSel (tag : Str) (attrs : List (Str × Str)) (sels : List Sel) : Bool :=
  sels.any (fun s =>
    s.1 = tag &&
    (match s.2 with
     | none => true
     | some c => (splitWs ((attrKey attrs ("class".data)).getD [])).contains c))

-- `querySelectorAll`: matching descendant ids in document (preorder)
-- order.
mutual
def selectAllT (t : HTree) (sels : List Sel) : List Nat :=
  match t with
  | .text _ _ => []
  | .elem i tag attrs kids =>
    (if matchesSel tag attrs sels then [i] else []) ++ selectAllF kids sels
def selectAllF (f : HForest) (sels : List Sel) : List Nat :=
  match f with
  | .nil => []
  | .cons h t => selectAllT h sels ++ selectAllF t sels
end

/-- `querySelector`: first match in document order. -/
def queryFirst (f : HForest) (sels : List Sel) : Option Nat :=
  (selectAllF f sels).head?

-- The chain of `(id, tag)` pairs from the node with id `i` (self first)
-- up to the root; text nodes contribute no tag entry.
mutual
def chainT (t : HTree) (i : Nat) : Option (List (Nat × Str)) :=
  match t with
  | .text j _ => if j = i then some [] else none
  | .elem j tag _ kids =>
    if j = i then some [(j, tag)]
    else match chainF kids i with
    | some l => some (l ++ [(j, tag)])
    | none => none
def chainF (f : HForest) (i : Nat) : Option (List (Nat × Str)) :=
  match f with
  | .nil => none
  | .cons h t =>
    match chainT h i with
    | some l => some l
    | none => chainF t i
end

/-- `closest(tag)`: nearest ancestor-or-self element with the given tag. -/
def closestTag (f : HForest) (i : Nat) (tag : Str) : Option Nat :=
  match chainF f i with
  | some l => (l.find? (fun p => p.2 = tag)).map (fun p => p.1)
  | none => none

/-!
## HTML parser and serializer (model of node-html-parser)
-/

def isAsciiLetter (c : Char) : Bool :=
  ('a' ≤ c && c ≤ 'z') || ('A' ≤ c && c ≤ 'Z')

def isTagChar (c : Char) : Bool := isAsciiLetter c || isDigit c

def VOID_TAGS : List Str :=
  [ "area".data, "base".data, "br".data, "col".data, "embed".data,
    "hr".data, "img".data, "input".data, "link".data, "meta".data,
    "param".data, "source".data, "track".data, "wbr".data ]

/-- Parse the attribute part of an open tag, up to and including the
closing `>`; returns the attributes, the rest of the input and whether the
tag was self-closing (`/>`). -/
def parseAttrs : Nat → Str → List (Str × Str) × Str × Bool
  | 0, s => ([], s, false)
  | fuel + 1, s =>
    let s1 := s.dropWhile isJsWs
    match s1 with
    | [] => ([], [], false)
    | '>' :: r => ([], r, false)
    | '/' :: r =>
      (match r.dropWhile isJsWs with
       | '>' :: r2 => ([], r2, true)
       | _ => parseAttrs fuel r)
    | _ =>
      let name := s1.takeWhile
        (fun c => !isJsWs c && c ≠ '=' && c ≠ '>' && c ≠ '/')
      let r1 := s1.drop name.length
      match r1 with
      | '=' :: r2 =>
        (match r2 with
         | '"' :: r3 =>
           let v := r3.takeWhile (fun c => c ≠ '"')
           let r4 := (r3.drop v.length).drop 1
           let (rest_attrs, rest, sc) := parseAttrs fuel r4
           ((name, v) :: rest_attrs, rest, sc)
         | _ =>
           let v := r2.takeWhile (fun c => !isJsWs c && c ≠ '>')
           let r3 := r2.drop v.length
           let (rest_attrs, rest, sc) := parseAttrs fuel r3
           ((name, v) :: rest_attrs, rest, sc))
      | _ =>
        let (rest_attrs, rest, sc) := parseAttrs fuel r1
        ((name, []) :: rest_attrs, rest, sc)

/-- Consume a closing tag `</...>` at the head of the input, if present. -/
def consumeClose (s : Str) : Str :=
  if startsWith ("</".data) s then
    ((s.dropWhile (fun c => c ≠ '>')).drop 1)
  else s

/-- Parse a run of sibling nodes, stopping at end of input or at a closing
tag (left for the enclosing element).  Returns the forest, the next free
id and the remaining input. -/
def parseNodes : Nat → Nat → Str → HForest × Nat × Str
  | 0, nid, s => (.nil, nid, s)
  | fuel + 1, nid, s =>
    match s with
    | [] => (.nil, nid, [])
    | '<' :: rest =>
      if startsWith ("/".data) rest then (.nil, nid, s)
      else
        match rest with
        | [] => (.cons (.text nid ['<']) .nil, nid + 1, [])
        | c :: _ =>
          if isAsciiLetter c then
            let tag := lowerStr (rest.takeWhile isTagChar)
            let afterTag := rest.dropWhile isTagChar
            let (attrs, afterOpen, selfC) :=
              parseAttrs (afterTag.length + 1) afterTag
            if selfC || VOID_TAGS.contains tag then
              let (sibs, nid1, rest1) := parseNodes fuel (nid + 1) afterOpen
              (.cons (.elem nid tag attrs .nil) sibs, nid1, rest1)
            else
              let (kids, nid1, rest1) := parseNodes fuel (nid + 1) afterOpen
              let rest2 := consumeClose rest1
              let (sibs, nid2, rest3) := parseNodes fuel nid1 rest2
              (.cons (.elem nid tag attrs kids) sibs, nid2, rest3)
          else
            let txt := '<' :: rest.takeWhile (fun c => c ≠ '<')
            let rest1 := rest.dropWhile (fun c => c ≠ '<')
            let (sibs, nid1, rest2) := parseNodes fuel (nid + 1) rest1
            (.cons (.text nid txt) sibs, nid1, rest2)
    | _ :: _ =>
      let txt := s.takeWhile (fun c => c ≠ '<')
      let rest1 := s.dropWhile (fun c => c ≠ '<')
      let (sibs, nid1, rest2) := parseNodes fuel (nid + 1) rest1
      (.cons (.text nid txt) sibs, nid1, rest2)

def appendF (a b : HForest) : HForest :=
  match a with
  | .nil => b
  | .cons h t => .cons h (appendF t b)

/-- Top-level parse loop: stray closing tags at the top level are skipped. -/
def parseTop : Nat → Nat → Str → HForest
  | 0, _, _ => .nil
  | fuel + 1, nid, s =>
    if s = [] then .nil
    else
      let (f, nid1, rest) := parseNodes (s.length + 1) nid s
      if rest = [] then f
      else appendF f (parseTop fuel nid1 (consumeClose rest))

/-- `parse` from node-html-parser (modelled): ids are assigned in document
order starting from 1. -/
def parseHtml (s : Str) : HForest := parseTop (s.length + 1) 1 s

def attrsToStr (attrs : List (Str × Str)) : Str :=
  attrs.foldr
    (fun kv acc => ' ' :: (kv.1 ++ ('=' :: '"' :: kv.2 ++ ['"'])) ++ acc) []

-- `outerHTML` / `innerHTML` serialization.
mutual
def outerT : HTree → Str
  | .text _ s => s
  | .elem _ tag attrs kids =>
    ('<' :: tag ++ attrsToStr attrs ++ [ '>' ]) ++
    (if VOID_TAGS.contains tag then []
     else innerF kids ++ ('<' :: '/' :: tag ++ [ '>' ]))
def innerF : HForest → Str
  | .nil => []
  | .cons h t => outerT h ++ innerF t
end

/-!
## Image resolution (`findLocalImage`)

The images directory on disk (`docs/images`) is modelled as the list of
filenames it contains (`disk`); `existsSync(join(IMAGES_DIR, f))` becomes
`disk.contains f`.  The image map (a JS object) is modelled as an
association list in insertion order with unique keys. -/

/-- Strip a WordPress size suffix: the effect of replacing the regex
`-\d+x\d+(\.\w+)$` by `$1`.  The matched region lies between the
unique candidate `-` and the final `.`, so the right-anchored decomposition
below coincides with the regex semantics. -/
def stripSizeSuffix (s : Str) : Str :=
  let r := s.reverse
  let ext := r.takeWhile isWordChar
  match r.drop ext.length with
  | '.' :: r2 =>
    let d2 := r2.takeWhile isDigit
    (match r2.drop d2.length with
     | 'x' :: r4 =>
       let d1 := r4.takeWhile isDigit
       (match r4.drop d1.length with
        | '-' :: r6 =>
          if ext ≠ [] && d2 ≠ [] && d1 ≠ [] then (ext ++ ('.' :: r6)).reverse
          else s
        | _ => s)
     | _ => s)
  | _ => s

/-- `imageMap[k]` used in a truthiness test: a hit with an empty value is
falsy in JS and falls through to the next stage. -/
def lookupNE (m : List (Str × Str)) (k : Str) : Option Str :=
  match m.find? (fun kv => kv.1 = k) with
  | some kv => if kv.2 = [] then none else some kv.2
  | none => none

/-- `findLocalImage` from the generator source. -/
def findLocalImage (url : Str) (imageMap : List (Str × Str))
    (disk : List Str) : Option Str :=
  let normalized := replaceFirst ("http://".data) ("https://".data) url
  match lookupNE imageMap normalized with
  | some v => some v
  | none =>
    let baseUrl := stripSizeSuffix normalized
    match lookupNE imageMap baseUrl with
    | some v => some v
    | none =>
      let filename := basename (beforeQuery url)
      match imageMap.find? (fun kv => basename (beforeQuery kv.1) = filename) with
      | some kv => some kv.2
      | none =>
        let cleanName := sanitizeChars filename
        if disk.contains cleanName then some cleanName else none

/-!
## Content cleaning (`cleanContentHtml`)
-/

/-- The share-widget class test `/a2a|addtoany|sharedaddy/.test(cls)`. -/
def isShareClass (cls : Str) : Bool :=
  containsStr ("a2a".data) cls || containsStr ("addtoany".data) cls ||
    containsStr ("sharedaddy".data) cls

/-- The `/\.(jpg|jpeg|png|gif)$/i` test. -/
def endsWithImageExt (href : Str) : Bool :=
  let h := lowerStr href
  List.isSuffixOf (".jpg".data) h || List.isSuffixOf (".jpeg".data) h ||
    List.isSuffixOf (".png".data) h || List.isSuffixOf (".gif".data) h

def selShare : List Sel := [("div".data, none), ("span".data, none)]
def selMoreLink : List Sel := [("a".data, some ("more-link".data))]
def selPDiv : List Sel := [("p".data, none), ("div".data, none)]
def selImg : List Sel := [("img".data, none)]
def selFigure : List Sel := [("figure".data, none)]
def selFigcaption : List Sel := [("figcaption".data, none)]
def selWrapper : List Sel := [("div".data, some ("entry-content".data))]

/-- One iteration of the share-widget removal loop. -/
def shareStep (f : HForest) (i : Nat) : HForest :=
  match findNodeF f i with
  | some (.elem _ _ attrs _) =>
    if isShareClass ((attrKey attrs ("class".data)).getD []) then removeIdF f i
    else f
  | _ => f

/-- One iteration of the empty-paragraph/div removal loop. -/
def emptyStep (f : HForest) (i : Nat) : HForest :=
  match findNodeF f i with
  | some (.elem _ _ _ kids) =>
    if jsTrim (textF kids) = [] && (queryFirst kids selImg).isNone then
      removeIdF f i
    else f
  | _ => f

/-- The attribute rewrite applied to a resolved image: set `src` to the
site-relative path, then remove the five WordPress-specific attributes. -/
def imgAttrRewrite (localFile : Str) (a : List (Str × Str)) :
    List (Str × Str) :=
  removeAttrL (removeAttrL (removeAttrL (removeAttrL (removeAttrL
    (setAttrL a ("src".data) ("/images/".data ++ localFile))
    ("srcset".data)) ("sizes".data)) ("class".data))
    ("width".data)) ("height".data)

/-- One iteration of the image-fixing loop. -/
def imgStep (imageMap : List (Str × Str)) (disk : List Str)
    (f : HForest) (i : Nat) : HForest :=
  match findNodeF f i with
  | some (.elem _ _ attrs _) =>
    let src := (attrKey attrs ("src".data)).getD []
    if src = [] then f
    else
      match findLocalImage src imageMap disk with
      | some localFile =>
        let f1 := editAttrsF f i (imgAttrRewrite localFile)
        (match closestTag f1 i ("a".data) with
         | some aid =>
           (match findNodeF f1 aid with
            | some (.elem _ _ aattrs _) =>
              let href := (attrKey aattrs ("href".data)).getD []
              if endsWithImageExt href then
                match findNodeF f1 i with
                | some imgNode => replaceAtF f1 aid imgNode
                | none => f1
              else f1
            | _ => f1)
         | none => f1)
      | none =>
        match closestTag f i ("figure".data) with
        | some fid => removeIdF f fid
        | none =>
          match closestTag f i ("a".data) with
          | some aid => removeIdF f aid
          | none => removeIdF f i
  | _ => f

/-- One iteration of the empty-figcaption removal loop. -/
def figcapStep (f : HForest) (i : Nat) : HForest :=
  match findNodeF f i with
  | some (.elem _ _ _ kids) =>
    match queryFirst kids selFigcaption with
    | some cid =>
      (match findNodeF kids cid with
       | some (.elem _ _ _ ckids) =>
         if jsTrim (textF ckids) = [] then removeIdF f cid else f
       | _ => f)
    | none => f
  | _ => f

/-- Fold a per-node action over a snapshot of node ids. -/
def runSnap (f : HForest) (snap : List Nat)
    (step : HForest → Nat → HForest) : HForest :=
  snap.foldl step f

/-!
### Final string substitutions

These model the anchored regex replacements
`/<p>\s*<br\s*\/?>\s*<\/p>/g` etc.: a matcher returns the length of the
match at the head of the string, and `replaceMatches` performs the global
leftmost replacement. -/

def replaceMatchesFuel (m : Str → Option Nat) (rep : Str) :
    Nat → Str → Str
  | 0, s => s
  | _, [] => []
  | fuel + 1, c :: cs =>
    match m (c :: cs) with
    | some n => rep ++ replaceMatchesFuel m rep fuel ((c :: cs).drop n)
    | none => c :: replaceMatchesFuel m rep fuel cs

def replaceMatches (m : Str → Option Nat) (rep : Str) (s : Str) : Str :=
  replaceMatchesFuel m rep (s.length + 1) s

/-- Match `<br\s*\/?>` at the head, returning the length consumed. -/
def matchBr (s : Str) : Option Nat :=
  if startsWith ("<br".data) s then
    let r := s.drop 3
    let w := r.takeWhile isJsWs
    match r.drop w.length with
    | '/' :: '>' :: _ => some (3 + w.length + 2)
    | '>' :: _ => some (3 + w.length + 1)
    | _ => none
  else none

/-- Match `<tg>\s*(<br\s*\/?>\s*)?</tg>` at the head (the `br` part is
required when `withBr` is set), returning the length of the match. -/
def emptyElemPat (tg : Str) (withBr : Bool) (s : Str) : Option Nat :=
  let openTag := '<' :: tg ++ [ '>' ]
  let closeTag := '<' :: '/' :: tg ++ [ '>' ]
  if startsWith openTag s then
    let r1 := s.drop openTag.length
    let w1 := r1.takeWhile isJsWs
    let r2 := r1.drop w1.length
    if withBr then
      match matchBr r2 with
      | some bn =>
        let r3 := r2.drop bn
        let w2 := r3.takeWhile isJsWs
        let r4 := r3.drop w2.length
        if startsWith closeTag r4 then
          some (openTag.length + w1.length + bn + w2.length + closeTag.length)
        else none
      | none => none
    else
      if startsWith closeTag r2 then
        some (openTag.length + w1.length + closeTag.length)
      else none
  else none

/-- Match a run of three or more newlines at the head. -/
def nlRunPat (s : Str) : Option Nat :=
  let run := s.takeWhile (fun c => c = '\n')
  if run.length ≥ 3 then some run.length else none

/-- The final `innerHtml.replace(...)` chain of `cleanContentHtml`. -/
def finalCleanup (s : Str) : Str :=
  let s1 := replaceMatches (emptyElemPat ("p".data) true) [] s
  let s2 := replaceMatches (emptyElemPat ("p".data) false) [] s1
  let s3 := replaceMatches (emptyElemPat ("div".data) true) [] s2
  let s4 := replaceMatches (emptyElemPat ("div".data) false) [] s3
  replaceMatches nlRunPat ("\n\n".data) s4

/-- `cleanContentHtml` from the generator source. -/
def cleanContentHtml (htmlStr : Str) (imageMap : List (Str × Str))
    (disk : List Str) : Str :=
  if htmlStr = [] then []
  else
    let root0 := parseHtml htmlStr
    let wrapPair :=
      match queryFirst root0 selWrapper with
      | some wid =>
        (match findNodeF root0 wid with
         | some wnode =>
           let r := parseHtml (outerT wnode)
           (r, queryFirst r selWrapper)
         | none => (root0, none))
      | none => (root0, none)
    let root1 := wrapPair.1
    let wrapperId := wrapPair.2
    let r2 := runSnap root1 (selectAllF root1 selShare) shareStep
    let r3 := runSnap r2 (selectAllF r2 selMoreLink) (fun f i => removeIdF f i)
    let r4 := runSnap r3 (selectAllF r3 selPDiv) emptyStep
    let r5 := runSnap r4 (selectAllF r4 selImg) (imgStep imageMap disk)
    let r6 := runSnap r5 (selectAllF r5 selFigure) figcapStep
    let inner :=
      match wrapperId with
      | some wid =>
        (match findNodeF r6 wid with
         | some (.elem _ _ _ kids) => innerF kids
         | _ => [])
      | none => innerF r6
    jsTrim (finalCleanup inner)

/-!
## HTML helpers (`escapeHtml`, `getExcerpt`)
-/

/-- `escapeHtml` from the generator source: four sequential global
replacements, ampersands first. -/
def escapeHtml (s : Str) : Str :=
  replaceAllStr ("\"".data) ("&quot;".data)
    (replaceAllStr (">".data) ("&gt;".data)
      (replaceAllStr ("<".data) ("&lt;".data)
        (replaceAllStr ("&".data) ("&amp;".data) s)))

/-- The plain text a fragment reduces to in `getExcerpt`. -/
def excerptText (html : Str) : Str :=
  jsTrim (replaceAllStr ("Continuer la lecture →".data) []
    (textF (parseHtml html)))

/-- `getExcerpt` from the generator source. -/
def getExcerpt (html : Str) (maxLength : Nat) : Str :=
  let text := excerptText html
  if text.length > maxLength then
    let cut : Int :=
      match lastIdxOf ' ' (text.take maxLength) with
      | some i => (i : Int)
      | none => -1
    let c : Nat := if cut > 0 then cut.toNat else maxLength
    text.take c ++ "...".data
  else text

/-!
## Generator data model and page rendering

`Post.parsedDate`/`parsedDateStr` model the optional fields added during
generation (absent before `annotatePost` runs).  The CSS constant and file
I/O are peripheral and not modelled; `generateSite` collects the pure
outputs (page strings keyed by slug, homepage, sitemap). -/

structure JsComment where
  author : Str
  text : Str
deriving DecidableEq, Repr

structure Post where
  title : Str
  date : Str
  slug : Str
  url : Str
  content_html : Str
  images : List Str
  comments : List JsComment
  parsedDate : Option JsDate := none
  parsedDateStr : Option Str := none
deriving DecidableEq, Repr

/-- `isBlogPost` (the attachment-slug exclusion list is passed explicitly;
the source memoizes it from a JSON file). -/
def isBlogPost (attachmentSlugs : List Str) (p : Post) : Bool :=
  !(attachmentSlugs.contains p.slug)

/-- The date-annotation pass of `main`. -/
def annotatePost (p : Post) : Post :=
  let dt := parseFrenchDate p.date
  { p with parsedDate := dt,
           parsedDateStr := some (match dt with
                                  | some d => formatDate (some d)
                                  | none => p.date) }

/-- `(p.parsedDate?.getTime() ?? 0)`: the sort key. -/
def sortKey (p : Post) : Int :=
  match p.parsedDate with
  | some dt => getTime dt
  | none => 0

/-- The newest-first sort of `main`: `Array.prototype.sort` is stable and
the comparator is `keyB - keyA`, so the result is the stable descending
order by `sortKey`, i.e. insertion sort with `sortKey b ≤ sortKey a`. -/
def sortPosts (l : List Post) : List Post :=
  l.insertionSort (fun a b => sortKey b ≤ sortKey a)

/-- `${p.parsedDateStr ?? p.date}` as used by the templates. -/
def displayDate (p : Post) : Str :=
  match p.parsedDateStr with
  | some s => s
  | none => p.date

def nl : Str := "\n".data

/-- `htmlHead` from the generator source. -/
def htmlHead (title description : Str) : Str :=
  let desc :=
    if description = [] then
      "Les petites histoires farfelues du vendredi de Sylvie Lafleur".data
    else description
  "<!DOCTYPE html>\n<html lang=\"fr-FR\">\n<head>\n<meta charset=\"UTF-8\">\n<meta name=\"viewport\" content=\"width=device-width, initial-scale=1.0\">\n<title>".data
  ++ escapeHtml title
  ++ "</title>\n<meta name=\"description\" content=\"".data
  ++ escapeHtml desc
  ++ "\">\n<meta property=\"og:title\" content=\"".data
  ++ escapeHtml title
  ++ "\">\n<meta property=\"og:type\" content=\"article\">\n<meta property=\"og:site_name\" content=\"Les petits vendredis\">\n<meta name=\"robots\" content=\"noai, noimageai\">\n<meta name=\"robots\" content=\"max-snippet:-1, max-image-preview:large, max-video-preview:-1\">\n<link rel=\"preconnect\" href=\"https://fonts.googleapis.com\">\n<link rel=\"preconnect\" href=\"https://fonts.gstatic.com\" crossorigin>\n<link href=\"https://fonts.googleapis.com/css2?family=Playfair+Display:ital,wght@0,400;0,600;1,400&family=DM+Sans:wght@400;500&display=swap\" rel=\"stylesheet\">\n<link rel=\"icon\" href=\"/favicon.svg\" type=\"image/svg+xml\">\n<link rel=\"stylesheet\" href=\"/style.css\">\n</head>".data

def HEADER : Str :=
  "<header class=\"site-header\">\n  <h1 class=\"site-title\"><a href=\"/\">Les petits vendredis</a></h1>\n  <nav class=\"site-nav\">\n    <a href=\"/\">Accueil</a>\n  </nav>\n</header>".data

def FOOTER : Str :=
  "<footer class=\"site-footer\">\n  <div class=\"footer-title\">Les petits vendredis</div>\n  <p class=\"footer-tagline\">Les petites histoires farfelues du vendredi de Sylvie Lafleur</p>\n</footer>".data

/-- The previous-post half of the navigation block. -/
def navPrevPart : Option Post → Str
  | some pp =>
    "    <a href=\"/".data ++ pp.slug ++ "/\" class=\"nav-link prev\">\n      <div class=\"nav-label\">Précédent</div>\n      <div class=\"nav-title\">".data
    ++ escapeHtml pp.title ++ "</div>\n    </a>\n".data
  | none => "    <div></div>\n".data

/-- The next-post half of the navigation block. -/
def navNextPart : Option Post → Str
  | some np =>
    "    <a href=\"/".data ++ np.slug ++ "/\" class=\"nav-link next\">\n      <div class=\"nav-label\">Suivant</div>\n      <div class=\"nav-title\">".data
    ++ escapeHtml np.title ++ "</div>\n    </a>\n".data
  | none => "    <div></div>\n".data

/-- The `<nav class="post-navigation">` block of a post page; empty when
there is neither a previous nor a next post (`if (prevPost || nextPost)` in
the source). -/
def navBlock (prevPost nextPost : Option Post) : Str :=
  if prevPost.isNone && nextPost.isNone then []
  else
    "<nav class=\"post-navigation\">\n".data
    ++ navPrevPart prevPost ++ navNextPart nextPost
    ++ "  </nav>".data

/-- One rendered comment block. -/
def commentBlock (c : JsComment) : Str :=
  "    <div class=\"comment\">\n      <div class=\"comment-author\">".data
  ++ escapeHtml c.author
  ++ "</div>\n      <div class=\"comment-content\">".data
  ++ escapeHtml c.text
  ++ "</div>\n    </div>\n".data

/-- The `<section class="comments-section">` block of a post page. -/
def commentsBlock (comments : List JsComment) : Str :=
  if comments.length = 0 then []
  else
    let label := if comments.length = 1 then "commentaire".data
                 else "commentaires".data
    "<section class=\"comments-section\">\n    <h3 class=\"comments-title\">".data
    ++ intToStr comments.length ++ (' ' :: label)
    ++ "</h3>\n".data
    ++ (comments.map commentBlock).flatten
    ++ "  </section>".data

/-- `generatePostPage` from the generator source. -/
def generatePostPage (post : Post) (prevPost nextPost : Option Post)
    (imageMap : List (Str × Str)) (disk : List Str) : Str :=
  let dateStr := displayDate post
  let content := cleanContentHtml post.content_html imageMap disk
  let excerpt := getExcerpt post.content_html 160
  htmlHead (post.title ++ " | Les petits vendredis".data) excerpt
  ++ "\n<body>\n\n".data ++ HEADER
  ++ "\n\n<main class=\"main-content\">\n  <article class=\"post\">\n    <header class=\"entry-header\">\n      <h1 class=\"entry-title\">".data
  ++ escapeHtml post.title
  ++ "</h1>\n      <div class=\"entry-meta\">".data
  ++ escapeHtml dateStr
  ++ "</div>\n    </header>\n\n    <div class=\"entry-content\">\n      ".data
  ++ content
  ++ "\n    </div>\n  </article>\n\n  <div class=\"divider\">&middot;&middot;&middot;</div>\n\n  <section class=\"author-section\">\n    <img src=\"/images/sylvie.jpg\" alt=\"Sylvie Lafleur\">\n    <div class=\"author-info\">\n      <h4>Sylvie Lafleur</h4>\n      <p>Femme ordinaire, mère qui s'est bien tirée d'affaire, folle à temps partiel ayant un esprit très frivole et des idées plus farfelues les unes que les autres.</p>\n    </div>\n  </section>\n\n  ".data
  ++ navBlock prevPost nextPost
  ++ "\n\n  ".data
  ++ commentsBlock post.comments
  ++ "\n</main>\n\n".data ++ FOOTER ++ "\n\n</body>\n</html>".data

/-- One homepage list item. -/
def homepageItem (p : Post) : Str :=
  "    <li class=\"post-list-item\">\n      <a href=\"/".data ++ p.slug
  ++ "/\">\n        <div class=\"post-list-date\">".data
  ++ escapeHtml (displayDate p)
  ++ "</div>\n        <h2 class=\"post-list-title\">".data
  ++ escapeHtml p.title
  ++ "</h2>\n        <p class=\"post-list-excerpt\">".data
  ++ escapeHtml (getExcerpt p.content_html 180)
  ++ "</p>\n      </a>\n    </li>\n".data

/-- `generateHomepage` from the generator source. -/
def generateHomepage (posts : List Post) : Str :=
  htmlHead ("Les petits vendredis".data)
    ("Voici les petites histoires farfelues du vendredi de Sylvie Lafleur".data)
  ++ "\n<body>\n\n".data ++ HEADER
  ++ "\n\n<main class=\"main-content\">\n  <div class=\"page-header\">\n    <h1 class=\"home-title\">Les petits vendredis</h1>\n    <p class=\"home-tagline\">Voici mes petites histoires du vendredi, plus farfelues les unes que les autres</p>\n    <div class=\"home-author\">\n      <img src=\"/images/sylvie.jpg\" alt=\"Sylvie Lafleur\">\n      <span>Par Sylvie Lafleur</span>\n    </div>\n  </div>\n\n  <ul class=\"post-list\">\n".data
  ++ (posts.map homepageItem).flatten
  ++ "  </ul>\n</main>\n\n".data ++ FOOTER ++ "\n\n</body>\n</html>".data

/-- Pad a day/month number to two digits (`String(x).padStart(2, "0")`). -/
def pad2 (n : Int) : Str :=
  let s := intToStr n
  if s.length < 2 then '0' :: s else s

def SITE_BASE : Str := "https://lespetitsvendredis.com/".data

/-- The `<loc>` value of a post's sitemap entry. -/
def postLoc (p : Post) : Str := SITE_BASE ++ p.slug ++ "/".data

/-- The `<loc>` values the sitemap loop emits: homepage first, then one per
(filtered, sorted) post. -/
def sitemapLocs (posts : List Post) : List Str :=
  SITE_BASE :: posts.map postLoc

/-- One `<url>` entry of the sitemap. -/
def sitemapEntry (p : Post) : Str :=
  let lastmod :=
    match p.parsedDate with
    | some dt =>
      "\n    <lastmod>".data ++ intToStr dt.year ++ "-".data
      ++ pad2 dt.month ++ "-".data ++ pad2 dt.day ++ "</lastmod>".data
    | none => []
  "  <url>\n    <loc>".data ++ postLoc p ++ "</loc>".data ++ lastmod
  ++ "\n  </url>\n".data

/-- The sitemap document built by `main`. -/
def sitemapXml (posts : List Post) : Str :=
  "<?xml version=\"1.0\" encoding=\"UTF-8\"?>\n<urlset xmlns=\"http://www.sitemaps.org/schemas/sitemap/0.9\">\n  <url>\n    <loc>https://lespetitsvendredis.com/</loc>\n    <priority>1.0</priority>\n  </url>\n".data
  ++ (posts.map sitemapEntry).flatten
  ++ "</urlset>\n".data

/-- Per-post pages in order: each post is paired with `posts[i+1]` as
previous (older) and `posts[i-1]` as next (newer), as in the `main` loop. -/
def buildPages (imageMap : List (Str × Str)) (disk : List Str) :
    Option Post → List Post → List (Str × Str)
  | _, [] => []
  | newer, p :: rest =>
    (p.slug, generatePostPage p rest.head? newer imageMap disk)
      :: buildPages imageMap disk (some p) rest

structure PostData where
  posts : List Post
  image_map : List (Str × Str)

structure SiteOutput where
  listed : List Post
  pages : List (Str × Str)
  homepage : Str
  sitemap : Str

/-- The filtered, annotated, newest-first post list `main` works with. -/
def sitePosts (data : PostData) (attachmentSlugs : List Str) : List Post :=
  sortPosts ((data.posts.filter (isBlogPost attachmentSlugs)).map annotatePost)

/-- The pure core of the generator's `main`: every artifact derived from
the dataset (file writing, logging and the fixed CSS/CNAME/404/robots
outputs are peripheral I/O). -/
def generateSite (data : PostData) (attachmentSlugs : List Str)
    (disk : List Str) : SiteOutput :=
  let posts := sitePosts data attachmentSlugs
  { listed := posts
    pages := buildPages data.image_map disk none posts
    homepage := generateHomepage posts
    sitemap := sitemapXml posts }

/-!
## Crawler URL filtering (`isBlogPostUrl`)

`new URL(url).pathname` is a platform API; it is modelled for absolute
http(s) URLs: the path runs from the first `/` after the host to the first
`?` or `#` (defaulting to `/` when absent). -/

def SKIP_SLUGS : List Str :=
  [ "products".data, "activites-du-site".data, "membres".data,
    "page-d-exemple".data ]

/-- The pathname of an absolute http(s) URL. -/
def urlPathname (u : Str) : Str :=
  let afterScheme :=
    if startsWith ("https://".data) u then u.drop 8
    else if startsWith ("http://".data) u then u.drop 7
    else u
  let path := afterScheme.dropWhile (fun c => c ≠ '/')
  let path := path.takeWhile (fun c => c ≠ '?' && c ≠ '#')
  if path = [] then "/".data else path

/-- `path.replace(/^\/|\/$/g, "")`: strip one leading and one trailing
slash. -/
def stripEdgeSlashes (s : Str) : Str :=
  let s1 := if startsWith ("/".data) s then s.drop 1 else s
  if s1 ≠ [] && List.isSuffixOf ("/".data) s1 then s1.take (s1.length - 1)
  else s1

/-- `isBlogPostUrl` from the crawler source. -/
def isBlogPostUrl (url : Str) : Bool :=
  let path := stripEdgeSlashes (urlPathname url)
  if path = [] then false
  else if SKIP_SLUGS.contains path then false
  else if ((path.splitOnP (fun c => c = '/')).length) > 1 then false
  else if containsStr ("attachment_id".data) url then false
  else true

/-- The crawler's URL filtering step (`allUrls.filter(isBlogPostUrl)`). -/
def filterUrls (urls : List Str) : List Str := urls.filter isBlogPostUrl

/-!
## Specification-side definitions used in theorem statements
-/

/-- Stage 1 of the spec's four-stage lookup: exact match after protocol
normalization. -/
def lookupStage1 (url : Str) (m : List (Str × Str)) : Option Str :=
  lookupNE m (replaceFirst ("http://".data) ("https://".data) url)

/-- Stage 2: match after stripping a WordPress size suffix. -/
def lookupStage2 (url : Str) (m : List (Str × Str)) : Option Str :=
  lookupNE m (stripSizeSuffix (replaceFirst ("http://".data) ("https://".data) url))

/-- Stage 3: match by comparing query-stripped basenames across all keys. -/
def lookupStage3 (url : Str) (m : List (Str × Str)) : Option Str :=
  (m.find? (fun kv =>
    basename (beforeQuery kv.1) = basename (beforeQuery url))).map (fun kv => kv.2)

/-- Stage 4: existence check of the sanitized basename in the output
images directory. -/
def lookupStage4 (url : Str) (disk : List Str) : Option Str :=
  let cleanName := sanitizeChars (basename (beforeQuery url))
  if disk.contains cleanName then some cleanName else none

/-- The four-stage lookup as the spec describes it: the stages tried in
order, the first hit winning. -/
def fourStageLookup (url : Str) (m : List (Str × Str)) (disk : List Str) :
    Option Str :=
  (lookupStage1 url m).orElse (fun _ =>
    (lookupStage2 url m).orElse (fun _ =>
      (lookupStage3 url m).orElse (fun _ => lookupStage4 url disk)))

/-- Blank out the escaped text fields of a comment (used to state that the
escaped fields cannot contribute markup characters to a page). -/
def scrubComment (_ : JsComment) : JsComment := { author := [], text := [] }

/-- Blank out every field of a post that reaches the page templates only
through `escapeHtml` (title, display date, comment author/text), keeping
the fields that are interpolated raw or drive the page structure
(content, slug, comment count, date-parse status). -/
def scrubPost (p : Post) : Post :=
  { p with title := [], date := [],
           parsedDateStr := (p.parsedDateStr).map (fun _ => []),
           comments := p.comments.map scrubComment }

/-- Number of leading newlines. -/
def leadNl (s : Str) : Nat := (s.takeWhile (fun c => c = '\n')).length

/-- `noTriple k s`: scanning `s` with `k` newlines already seen, no run of
three consecutive newlines ever occurs. -/
def noTriple : Nat → Str → Bool
  | _, [] => true
  | k, c :: cs =>
    if c = '\n' then decide (k + 1 < 3) && noTriple (k + 1) cs
    else noTriple 0 cs

/-- Per-character HTML escaping as the spec describes `escapeHtml`: the
four markup characters become entities, everything else (single quotes
included) passes through. -/
def escapeChar (c : Char) : Str :=
  if c = '&' then "&amp;".data
  else if c = '<' then "&lt;".data
  else if c = '>' then "&gt;".data
  else if c = '"' then "&quot;".data
  else [c]

/-- A sample post whose date parses to a pre-epoch (1969) date. -/
def samplePostOld : Post :=
  { title := [], date := "31 décembre 1969".data, slug := "old".data,
    url := [], content_html := [], images := [], comments := [] }

/-- A sample post whose date does not parse. -/
def samplePostBadDate : Post :=
  { title := [], date := "9 blurg 2020".data, slug := "bad".data,
    url := [], content_html := [], images := [], comments := [] }

/-- A content fragment: an image with an unresolvable remote src wrapped in
a figure. -/
def figWrapSample : Str :=
  ("<figure><img src=\"https://e/a.jpg\"></figure>").data

/-- A content fragment whose unresolvable image sits inside a share-widget
div inside a figure; the share-widget phase removes the div (and the image
inside it) before the image-fixing loop runs. -/
def figShareSample : Str :=
  ("<figure>keep<div class=\"a2a_kit\"><img src=\"https://e/a.jpg\"></div></figure>").data

/-!
# Theorems

General-purpose helper lemmas first, then one main theorem per claim
(with its witness or counterexample).
-/

theorem takeWhile_append_all {α : Type} (p : α → Bool) :
    ∀ (a b : List α), (∀ c ∈ a, p c) → (a ++ b).takeWhile p = a ++ b.takeWhile p := by
  intro a b h
  induction a with
  | nil => simp
  | cons x xs ih =>
    have hx : p x := h x (by simp)
    simp [List.takeWhile_cons, hx, ih (fun c hc => h c (by simp [hc]))]

theorem dropWhile_append_all {α : Type} (p : α → Bool) :
    ∀ (a b : List α), (∀ c ∈ a, p c) → (a ++ b).dropWhile p = b.dropWhile p := by
  intro a b h
  induction a with
  | nil => simp
  | cons x xs ih =>
    have hx : p x := h x (by simp)
    simp [List.dropWhile_cons, hx, ih (fun c hc => h c (by simp [hc]))]

theorem takeWhile_all {α : Type} (p : α → Bool) (a : List α)
    (h : ∀ c ∈ a, p c) : a.takeWhile p = a := by
  have := takeWhile_append_all p a [] h
  simpa using this

theorem dropWhile_all {α : Type} (p : α → Bool) (a : List α)
    (h : ∀ c ∈ a, p c) : a.dropWhile p = [] := by
  have := dropWhile_append_all p a [] h
  simpa using this

/-- `stripSizeSuffix` on a `-300x200.jpg`-suffixed URL strips the size. -/
theorem stripSizeSuffix_append (pre : Str) :
    stripSizeSuffix (pre ++ ("-300x200.jpg".data)) = pre ++ (".jpg".data) := by
  have hWdot : isWordChar '.' = false := by decide
  have hDx : isDigit 'x' = false := by decide
  have hDdash : isDigit '-' = false := by decide
  have hrev : (pre ++ ("-300x200.jpg".data)).reverse
      = ['g', 'p', 'j'] ++ '.' :: (['0', '0', '2'] ++ 'x' :: (['0', '0', '3'] ++ '-' :: pre.reverse)) := by
    simp [List.reverse_append]
  have hext : ((['g', 'p', 'j'] : Str) ++ '.' :: (['0', '0', '2'] ++ 'x' :: (['0', '0', '3'] ++ '-' :: pre.reverse))).takeWhile isWordChar
      = ['g', 'p', 'j'] := by
    rw [takeWhile_append_all isWordChar ['g', 'p', 'j'] _ (by decide)]
    simp [List.takeWhile_cons, hWdot]
  have hd2 : ((['0', '0', '2'] : Str) ++ 'x' :: (['0', '0', '3'] ++ '-' :: pre.reverse)).takeWhile isDigit
      = ['0', '0', '2'] := by
    rw [takeWhile_append_all isDigit ['0', '0', '2'] _ (by decide)]
    simp [List.takeWhile_cons, hDx]
  have hd1 : ((['0', '0', '3'] : Str) ++ '-' :: pre.reverse).takeWhile isDigit
      = ['0', '0', '3'] := by
    rw [takeWhile_append_all isDigit ['0', '0', '3'] _ (by decide)]
    simp [List.takeWhile_cons, hDdash]
  unfold stripSizeSuffix
  rw [hrev]
  dsimp only
  rw [hext]
  rw [show (((['g', 'p', 'j'] : Str) ++ '.' :: (['0', '0', '2'] ++ 'x' :: (['0', '0', '3'] ++ '-' :: pre.reverse))).drop
      ((['g', 'p', 'j'] : Str)).length) = '.' :: (['0', '0', '2'] ++ 'x' :: (['0', '0', '3'] ++ '-' :: pre.reverse))
    from List.drop_left _ _]
  split
  next r2 heq =>
    obtain rfl : r2 = ['0', '0', '2'] ++ 'x' :: (['0', '0', '3'] ++ '-' :: pre.reverse) := by
      injection heq with h1 h2
      exact h2.symm
    rw [hd2]
    rw [show (((['0', '0', '2'] : Str) ++ 'x' :: (['0', '0', '3'] ++ '-' :: pre.reverse)).drop
        ((['0', '0', '2'] : Str)).length) = 'x' :: (['0', '0', '3'] ++ '-' :: pre.reverse)
      from List.drop_left _ _]
    split
    next r4 heq2 =>
      obtain rfl : r4 = ['0', '0', '3'] ++ '-' :: pre.reverse := by
        injection heq2 with h1 h2
        exact h2.symm
      rw [hd1]
      rw [show (((['0', '0', '3'] : Str) ++ '-' :: pre.reverse).drop
          ((['0', '0', '3'] : Str)).length) = '-' :: pre.reverse
        from List.drop_left _ _]
      split
      next r6 heq3 =>
        obtain rfl : r6 = pre.reverse := by
          injection heq3 with h1 h2
          exact h2.symm
        simp [List.reverse_append]
      next h => exact absurd rfl (h pre.reverse)
    next h => exact absurd rfl (h (['0', '0', '3'] ++ '-' :: pre.reverse))
  next h => exact absurd rfl (h (['0', '0', '2'] ++ 'x' :: (['0', '0', '3'] ++ '-' :: pre.reverse)))

/-- C4: `findLocalImage` resolves an image URL by exactly the four stages
of the spec, tried in order — exact match after protocol normalization,
match after stripping a `-WIDTHxHEIGHT` size suffix, match by
query-stripped basenames over all map keys, and an existence check of the
sanitized basename in the output images directory — returning `none` only
when all four fail; and a size-suffixed URL variant resolves to the same
local file as the unsuffixed key. -/
theorem findLocalImage_four_stages :
    (∀ url m d, findLocalImage url m d = fourStageLookup url m d) ∧
    (∀ url m d, findLocalImage url m d = none ↔
      (lookupStage1 url m = none ∧ lookupStage2 url m = none ∧
       lookupStage3 url m = none ∧ lookupStage4 url d = none)) ∧
    (∀ pre v d,
      replaceFirst ("http://".data) ("https://".data) (pre ++ ("-300x200.jpg".data))
        = pre ++ ("-300x200.jpg".data) →
      v ≠ [] →
      findLocalImage (pre ++ ("-300x200.jpg".data)) [(pre ++ (".jpg".data), v)] d
        = some v) := by
  have heq : ∀ url m d, findLocalImage url m d = fourStageLookup url m d := by
    intro url m d
    unfold findLocalImage fourStageLookup lookupStage1 lookupStage2 lookupStage3
      lookupStage4
    dsimp only
    cases lookupNE m (replaceFirst ("http://".data) ("https://".data) url) with
    | some v => simp
    | none =>
      simp only [Option.none_orElse]
      cases lookupNE m (stripSizeSuffix
          (replaceFirst ("http://".data) ("https://".data) url)) with
      | some v => simp
      | none =>
        simp only [Option.none_orElse]
        cases m.find? (fun kv =>
            basename (beforeQuery kv.1) = basename (beforeQuery url)) with
        | some kv => simp
        | none => simp
  refine ⟨heq, ?_, ?_⟩
  · intro url m d
    rw [heq]
    unfold fourStageLookup
    cases lookupStage1 url m with
    | some v => simp
    | none =>
      simp only [Option.none_orElse]
      cases lookupStage2 url m with
      | some v => simp
      | none =>
        simp only [Option.none_orElse]
        cases lookupStage3 url m with
        | some v => simp
        | none => simp
  · intro pre v d hnorm hv
    have hne : ¬((pre ++ (".jpg".data) : Str) = pre ++ ("-300x200.jpg".data)) := by
      intro hcontra
      have := congrArg List.length hcontra
      simp at this
    unfold findLocalImage
    dsimp only
    rw [hnorm]
    have hs1 : lookupNE [(pre ++ (".jpg".data), v)] (pre ++ ("-300x200.jpg".data))
        = none := by
      unfold lookupNE
      simp [List.find?, hne]
    rw [hs1]
    have hs2 : lookupNE [(pre ++ (".jpg".data), v)]
        (stripSizeSuffix (pre ++ ("-300x200.jpg".data))) = some v := by
      rw [stripSizeSuffix_append]
      unfold lookupNE
      simp [List.find?, hv]
    rw [hs2]

/-- Witness for C4 at a concrete size-suffixed URL. -/
theorem findLocalImage_four_stages_witness :
    findLocalImage (("https://e/photo".data) ++ ("-300x200.jpg".data))
      [(("https://e/photo".data) ++ (".jpg".data), "photo.jpg".data)] []
      = some ("photo.jpg".data) :=
  findLocalImage_four_stages.2.2 ("https://e/photo".data) ("photo.jpg".data) []
    (by decide) (by decide)

/-- C9 (amended): the crawler's URL filter excludes deny-listed root
paths, multi-segment paths, URLs containing the attachment marker, and
empty paths; and it preserves distinctness (the result has no duplicates
whenever the input sitemap URL list has none — the filter itself performs
no deduplication). -/
theorem isBlogPostUrl_filtering :
    (∀ u, stripEdgeSlashes (urlPathname u) ∈ SKIP_SLUGS →
      isBlogPostUrl u = false) ∧
    (∀ u, ((stripEdgeSlashes (urlPathname u)).splitOnP (fun c => c = '/')).length > 1 →
      isBlogPostUrl u = false) ∧
    (∀ u, containsStr ("attachment_id".data) u = true → isBlogPostUrl u = false) ∧
    (∀ u, stripEdgeSlashes (urlPathname u) = [] → isBlogPostUrl u = false) ∧
    (∀ urls, urls.Nodup → (filterUrls urls).Nodup) := by
  refine ⟨?_, ?_, ?_, ?_, ?_⟩
  · intro u h
    unfold isBlogPostUrl
    dsimp only
    have hc : SKIP_SLUGS.contains (stripEdgeSlashes (urlPathname u)) = true := by
      exact List.elem_eq_true_of_mem h
    split_ifs <;> simp_all
  · intro u h
    unfold isBlogPostUrl
    dsimp only
    split_ifs <;> simp_all
  · intro u h
    unfold isBlogPostUrl
    dsimp only
    split_ifs <;> simp_all
  · intro u h
    unfold isBlogPostUrl
    dsimp only
    split_ifs <;> simp_all
  · intro urls h
    exact h.filter _

/-- Witness for C9 at a concrete deny-listed URL. -/
theorem isBlogPostUrl_filtering_witness :
    isBlogPostUrl ("https://lespetitsvendredis.com/products/".data) = false :=
  isBlogPostUrl_filtering.1 ("https://lespetitsvendredis.com/products/".data)
    (by decide)

/-- C9 counterexample: the filter does not deduplicate — a duplicated
sitemap URL survives in duplicate, so the filtered list is not
"deduplicated by construction". -/
theorem filterUrls_dedup_counterexample :
    filterUrls [("https://x.com/a".data), ("https://x.com/a".data)]
      = [("https://x.com/a".data), ("https://x.com/a".data)] ∧
    ¬ (filterUrls [("https://x.com/a".data), ("https://x.com/a".data)]).Nodup := by
  constructor
  · rfl
  · decide

theorem lastIdxOf_none_spec (c : Char) :
    ∀ (s : Str), lastIdxOf c s = none → ∀ (j : Nat), s[j]? ≠ some c := by
  intro s
  induction s with
  | nil => intro _ j; simp
  | cons a rest ih =>
    intro h j
    unfold lastIdxOf at h
    cases hrest : lastIdxOf c rest with
    | some i => rw [hrest] at h; exact absurd h (by simp)
    | none =>
      rw [hrest] at h
      by_cases hac : a = c
      · simp [hac] at h
      · cases j with
        | zero => simp [hac]
        | succ j2 => simpa using ih hrest j2

theorem lastIdxOf_spec (c : Char) :
    ∀ (s : Str) (g : Nat), lastIdxOf c s = some g →
      g < s.length ∧ s[g]? = some c ∧ ∀ (j : Nat), g < j → s[j]? ≠ some c := by
  intro s
  induction s with
  | nil => intro g h; simp [lastIdxOf] at h
  | cons a rest ih =>
    intro g h
    unfold lastIdxOf at h
    cases hrest : lastIdxOf c rest with
    | some i =>
      rw [hrest] at h
      have hg : g = i + 1 := by
        have := Option.some.inj h
        omega
      subst hg
      obtain ⟨hlen, hget, hmax⟩ := ih i hrest
      refine ⟨by simpa using hlen, by simpa using hget, ?_⟩
      intro j hj
      cases j with
      | zero => omega
      | succ j2 =>
        have : i < j2 := by omega
        simpa using hmax j2 this
    | none =>
      rw [hrest] at h
      by_cases hac : a = c
      · simp only [hac, if_pos rfl] at h
        have hg : g = 0 := by
          have := Option.some.inj h
          omega
        subst hg
        refine ⟨by simp, by simp [hac], ?_⟩
        intro j hj
        cases j with
        | zero => omega
        | succ j2 => simpa using lastIdxOf_none_spec c rest hrest j2
      · simp [hac] at h

theorem lastIdxOf_mem (c : Char) :
    ∀ (s : Str) (i : Nat), s[i]? = some c →
      ∃ g, lastIdxOf c s = some g ∧ i ≤ g := by
  intro s
  induction s with
  | nil => intro i h; simp at h
  | cons a rest ih =>
    intro i h
    cases i with
    | zero =>
      have hac : a = c := by simpa using h
      unfold lastIdxOf
      cases hrest : lastIdxOf c rest with
      | some g => exact ⟨g + 1, by simp, by omega⟩
      | none => exact ⟨0, by simp [hac], by omega⟩
    | succ i2 =>
      have h2 : rest[i2]? = some c := by simpa using h
      obtain ⟨g, hg, hle⟩ := ih i2 h2
      unfold lastIdxOf
      rw [hg]
      exact ⟨g + 1, rfl, by omega⟩

/-- C7 (amended): the excerpt never exceeds the requested maximum length
plus the 3-character ellipsis, and when truncation occurs with a space
(U+0020 — the code cuts at `lastIndexOf(" ")`, not at arbitrary
whitespace) at a positive index within the limit, the cut lands exactly on
the last such space, so no word is split at a space boundary. -/
theorem getExcerpt_truncation :
    ∀ (html : Str) (N : Nat),
      (getExcerpt html N).length ≤ N + 3 ∧
      ((excerptText html).length > N →
        (∃ i : Nat, 0 < i ∧ i < N ∧ (excerptText html)[i]? = some ' ') →
        ∃ cpos : Nat,
          getExcerpt html N = (excerptText html).take cpos ++ ("...".data) ∧
          0 < cpos ∧ cpos < N ∧ (excerptText html)[cpos]? = some ' ' ∧
          ∀ j : Nat, cpos < j → j < N → (excerptText html)[j]? ≠ some ' ') := by
  intro html N
  constructor
  · unfold getExcerpt
    dsimp only
    by_cases h : (excerptText html).length > N
    · rw [if_pos h]
      cases hL : lastIdxOf ' ' ((excerptText html).take N) with
      | none =>
        dsimp only
        rw [if_neg (by norm_num)]
        simp [List.length_take]
      | some i =>
        dsimp only
        obtain ⟨hlen, _, _⟩ := lastIdxOf_spec ' ' _ _ hL
        have hiN : i < N := lt_of_lt_of_le hlen (by simp [List.length_take])
        by_cases hi0 : (0 : Int) < (i : Int)
        · rw [if_pos hi0]
          simp only [Int.toNat_natCast]
          simp [List.length_take]
          omega
        · rw [if_neg hi0]
          simp [List.length_take]
    · rw [if_neg h]
      omega
  · intro hlen hex
    obtain ⟨i, hi0, hiN, hsp⟩ := hex
    have hsp2 : ((excerptText html).take N)[i]? = some ' ' := by
      rw [List.getElem?_take, if_pos hiN]
      exact hsp
    obtain ⟨g, hg, hig⟩ := lastIdxOf_mem ' ' _ i hsp2
    obtain ⟨hglen, hgget, hgmax⟩ := lastIdxOf_spec ' ' _ _ hg
    have hg0 : 0 < g := lt_of_lt_of_le hi0 hig
    have hgN : g < N := lt_of_lt_of_le hglen (by simp [List.length_take])
    refine ⟨g, ?_, hg0, hgN, ?_, ?_⟩
    · unfold getExcerpt
      dsimp only
      rw [if_pos hlen, hg]
      dsimp only
      rw [if_pos (by exact_mod_cast hg0)]
      simp
    · rw [List.getElem?_take, if_pos hgN] at hgget
      exact hgget
    · intro j hgj hjN
      have := hgmax j hgj
      rw [List.getElem?_take, if_pos hjN] at this
      exact this

/-- Witness for C7 at a concrete fragment truncated at a word boundary. -/
theorem getExcerpt_truncation_witness :
    ∃ cpos : Nat,
      getExcerpt ("hello world this is text".data) 12
        = (excerptText ("hello world this is text".data)).take cpos ++ ("...".data) ∧
      0 < cpos ∧ cpos < 12 ∧
      (excerptText ("hello world this is text".data))[cpos]? = some ' ' ∧
      ∀ j : Nat, cpos < j → j < 12 →
        (excerptText ("hello world this is text".data))[j]? ≠ some ' ' :=
  (getExcerpt_truncation ("hello world this is text".data) 12).2 (by decide)
    ⟨5, by decide, by decide, by decide⟩

/-- C7 counterexample: with a tab (whitespace, but not a space) before the
limit and no space, the cut happens at the raw limit, after the last
whitespace boundary and in the middle of a word — the claim's
"whitespace" reading fails; only spaces are considered. -/
theorem getExcerpt_whitespace_counterexample :
    getExcerpt ("ab\tcdefghij".data) 5 = "ab\tcd...".data ∧
    (excerptText ("ab\tcdefghij".data))[2]? = some '\t' ∧
    isJsWs '\t' = true ∧
    (excerptText ("ab\tcdefghij".data)).length > 5 := by
  refine ⟨by decide, by decide, by decide, by decide⟩

theorem splitWsF_nil (fuel : Nat) : splitWsF fuel [] = [] := by
  cases fuel <;> rfl

theorem splitWsF_token (fuel : Nat) (w a r : Str)
    (hw : ∀ c ∈ w, isJsWs c) (ha : a ≠ []) (haw : ∀ c ∈ a, ¬ isJsWs c)
    (hr : r = [] ∨ ∃ c r2, r = c :: r2 ∧ isJsWs c) :
    splitWsF (fuel + 1) (w ++ a ++ r) = a :: splitWsF fuel r := by
  obtain ⟨x, xs, rfl⟩ : ∃ x xs, a = x :: xs := by
    cases a with
    | nil => exact absurd rfl ha
    | cons x xs => exact ⟨x, xs, rfl⟩
  have hx : ¬ isJsWs x := haw x (by simp)
  have hdrop : ((w ++ (x :: xs) ++ r) : Str).dropWhile isJsWs = x :: (xs ++ r) := by
    rw [List.append_assoc, dropWhile_append_all isJsWs w _ hw]
    simp [List.dropWhile_cons, hx]
  have htake : List.takeWhile (fun c => !isJsWs c) (x :: (xs ++ r)) = x :: xs := by
    have hform : (x :: (xs ++ r) : Str) = (x :: xs) ++ r := by simp
    rw [hform, takeWhile_append_all _ (x :: xs) r
      (by intro ch hch; simpa using haw ch hch)]
    rcases hr with rfl | ⟨ch, r2, rfl, hcws⟩
    · simp
    · simp [List.takeWhile_cons, hcws]
  conv_lhs => unfold splitWsF
  rw [hdrop]
  dsimp only
  rw [htake]
  congr 1
  have hform : (x :: (xs ++ r) : Str) = (x :: xs) ++ r := by simp
  rw [hform]
  rw [List.drop_left]

theorem splitWs_three (a b c : Str)
    (ha : a ≠ []) (haw : ∀ x ∈ a, ¬ isJsWs x)
    (hb : b ≠ []) (hbw : ∀ x ∈ b, ¬ isJsWs x)
    (hc : c ≠ []) (hcw : ∀ x ∈ c, ¬ isJsWs x) :
    splitWs (a ++ (' ' :: b) ++ (' ' :: c)) = [a, b, c] := by
  unfold splitWs
  set s : Str := a ++ (' ' :: b) ++ (' ' :: c) with hs
  obtain ⟨k, hk⟩ : ∃ k, s.length = k + 2 := by
    refine ⟨a.length + b.length + c.length, ?_⟩
    simp [hs]
    omega
  rw [hk]
  have h1 : s = [] ++ a ++ ((' ' :: b) ++ (' ' :: c)) := by simp [hs]
  rw [h1]
  rw [show (k + 2) + 1 = (k + 2) + 1 from rfl,
    splitWsF_token (k + 2) [] a _ (by simp) ha haw
      (Or.inr ⟨' ', b ++ (' ' :: c), by simp, by decide⟩)]
  have h2 : (' ' :: b) ++ (' ' :: c) = [' '] ++ b ++ (' ' :: c) := by simp
  rw [h2, show k + 2 = (k + 1) + 1 from rfl,
    splitWsF_token (k + 1) [' '] b _ (by intro ch hch; simp at hch; simp [hch]; decide) hb hbw
      (Or.inr ⟨' ', c, rfl, by decide⟩)]
  have h3 : (' ' :: c) = [' '] ++ c ++ ([] : Str) := by simp
  rw [h3, splitWsF_token k [' '] c [] (by intro ch hch; simp at hch; simp [hch]; decide)
    hc hcw (Or.inl rfl)]
  simp [splitWsF_nil]

theorem char_digit_val (m : Nat) (h : m < 10) :
    digitVal (Char.ofNat (48 + m)) = m := by
  interval_cases m <;> decide

theorem char_digit_isDigit (m : Nat) (h : m < 10) :
    isDigit (Char.ofNat (48 + m)) = true := by
  interval_cases m <;> decide

theorem natDigitsF_all_digit :
    ∀ (fuel n : Nat) (c : Char), c ∈ natDigitsF fuel n → isDigit c := by
  intro fuel
  induction fuel with
  | zero => intro n c h; simp [natDigitsF] at h
  | succ f ih =>
    intro n c h
    unfold natDigitsF at h
    by_cases h10 : n < 10
    · rw [if_pos h10] at h
      simp at h
      subst h
      exact char_digit_isDigit n h10
    · rw [if_neg h10] at h
      rcases List.mem_append.mp h with h1 | h2
      · exact ih _ c h1
      · simp at h2
        subst h2
        exact char_digit_isDigit _ (Nat.mod_lt _ (by omega))

theorem natDigitsF_ne_nil (fuel n : Nat) (h : 0 < fuel) :
    natDigitsF fuel n ≠ [] := by
  cases fuel with
  | zero => omega
  | succ f =>
    unfold natDigitsF
    by_cases h10 : n < 10
    · simp [h10]
    · rw [if_neg h10]
      simp

theorem readDigits_nil (acc : Nat) : readDigits acc [] = (acc, []) := rfl

theorem readDigits_cons (acc : Nat) (c : Char) (cs : Str) :
    readDigits acc (c :: cs) =
      if isDigit c then readDigits (acc * 10 + digitVal c) cs else (acc, c :: cs) := rfl

theorem readDigits_append (xs : Str) :
    ∀ (ys : Str) (acc v : Nat), readDigits acc xs = (v, []) →
      readDigits acc (xs ++ ys) = readDigits v ys := by
  induction xs with
  | nil =>
    intro ys acc v h
    have hav : acc = v := by
      have := congrArg Prod.fst h
      simpa [readDigits_nil] using this
    subst hav
    rfl
  | cons c cs ih =>
    intro ys acc v h
    rw [readDigits_cons] at h
    rw [List.cons_append, readDigits_cons]
    by_cases hd : isDigit c
    · rw [if_pos hd] at h ⊢
      exact ih ys _ v h
    · rw [if_neg hd] at h
      exact absurd (congrArg Prod.snd h) (by simp)

theorem readDigits_natDigitsF :
    ∀ (n fuel : Nat), n < fuel → readDigits 0 (natDigitsF fuel n) = (n, []) := by
  intro n
  induction n using Nat.strong_induction_on with
  | _ n ihn =>
    intro fuel hf
    cases fuel with
    | zero => omega
    | succ f =>
      unfold natDigitsF
      by_cases h10 : n < 10
      · rw [if_pos h10, readDigits_cons, if_pos (char_digit_isDigit n h10)]
        simp [readDigits_nil, char_digit_val n h10]
      · rw [if_neg h10]
        have hq : n / 10 < n := Nat.div_lt_self (by omega) (by omega)
        have hqf : n / 10 < f := by omega
        rw [readDigits_append _ _ 0 (n / 10) (ihn _ hq f hqf)]
        rw [readDigits_cons, if_pos (char_digit_isDigit _ (Nat.mod_lt _ (by omega)))]
        simp [readDigits_nil, char_digit_val _ (Nat.mod_lt _ (by omega))]
        omega

theorem digit_not_ws (c : Char) (h : isDigit c = true) : isJsWs c = false := by
  have h1 : '0' ≤ c ∧ c ≤ '9' := by simpa [isDigit] using h
  simp only [isJsWs, Bool.or_eq_false_iff, decide_eq_false_iff_not]
  repeat' apply And.intro
  all_goals (rintro rfl; revert h1; decide)

theorem parseIntJS_natDigits (n : Nat) : parseIntJS (natDigits n) = some (n : Int) := by
  have hall : ∀ c ∈ natDigits n, isDigit c := fun c hc =>
    natDigitsF_all_digit (n + 1) n c hc
  have hnn : natDigits n ≠ [] := natDigitsF_ne_nil (n + 1) n (by omega)
  have hread : readDigits 0 (natDigits n) = (n, []) :=
    readDigits_natDigitsF n (n + 1) (by omega)
  unfold parseIntJS
  have hdrop : (natDigits n).dropWhile isJsWs = natDigits n := by
    cases hd : natDigits n with
    | nil => rfl
    | cons c cs =>
      have : isJsWs c = false := digit_not_ws c (hall c (by rw [hd]; simp))
      simp [List.dropWhile_cons, this]
  rw [hdrop]
  cases hd : natDigits n with
  | nil => exact absurd hd hnn
  | cons c cs =>
    have hdc : isDigit c = true := hall c (by rw [hd]; simp)
    have hcne : ¬(c = '-') := by
      intro hch
      rw [hch] at hdc
      exact absurd hdc (by decide)
    have hcne2 : ¬(c = '+') := by
      intro hch
      rw [hch] at hdc
      exact absurd hdc (by decide)
    dsimp only
    rw [if_neg hcne, if_neg hcne2, if_pos hdc]
    rw [← hd, hread]


theorem jsTrim_eq_self (s : Str)
    (h1 : ∀ c, s.head? = some c → ¬ isJsWs c)
    (h2 : ∀ c, s.getLast? = some c → ¬ isJsWs c) : jsTrim s = s := by
  unfold jsTrim
  cases s with
  | nil => rfl
  | cons x xs =>
    have hx : ¬ isJsWs x := h1 x rfl
    rw [List.dropWhile_cons, if_neg hx]
    cases hr : (x :: xs).reverse with
    | nil => exact absurd hr (by simp)
    | cons y ys =>
      have hy : (x :: xs).getLast? = some y := by
        rw [← List.head?_reverse, hr]
        rfl
      have hyw : ¬ isJsWs y := h2 y hy
      have hstep : List.dropWhile isJsWs (y :: ys) = y :: ys := by
        rw [List.dropWhile_cons, if_neg hyw]
      rw [hstep, ← hr]
      simp

theorem intToStr_natCast (n : Nat) : intToStr (n : Int) = natDigits n := by
  unfold intToStr
  rw [if_neg (by omega)]
  simp

theorem mkJsDate_in_range (y m d : Int) (hy : 100 ≤ y) (hm1 : 1 ≤ m) (hm2 : m ≤ 12)
    (hd1 : 1 ≤ d) (hd2 : d ≤ daysInMonth y m) :
    mkJsDate y m d = ⟨y, m, d⟩ := by
  unfold mkJsDate
  dsimp only
  have e1 : (if (0 ≤ y && y ≤ 99) = true then y + 1900 else y) = y := by
    rw [if_neg]
    simp only [Bool.and_eq_true, decide_eq_true_eq]
    omega
  rw [e1]
  have e2 : (if m - 1 ≥ 0 then (m - 1) / 12 else -((11 - (m - 1)) / 12)) = 0 := by
    rw [if_pos (by omega)]
    omega
  rw [e2]
  have e3 : (m - 1) % 12 + 12 = m + 11 := by omega
  have e4 : (m + 11) % 12 + 1 = m := by omega
  rw [e3, e4]
  have e5 : y + 0 = y := by omega
  rw [e5]
  rw [if_pos]
  simp only [Bool.and_eq_true, decide_eq_true_eq]
  exact ⟨hd1, hd2⟩

/-- C5: for every valid day number, month name from the fixed French table
and (at-least-three-digit, at most four-digit) year, formatting the result
of parsing `D monthname YYYY` round-trips to the same canonical string. -/
theorem parseFrenchDate_formatDate_roundtrip :
    ∀ (d m y : Nat), 1 ≤ m → m ≤ 12 → 1 ≤ d →
      (d : Int) ≤ daysInMonth (y : Int) (m : Int) → 100 ≤ y → y ≤ 9999 →
      parseFrenchDate (natDigits d ++ (' ' :: frenchMonthName (m : Int))
          ++ (' ' :: natDigits y))
        = some ⟨(y : Int), (m : Int), (d : Int)⟩ ∧
      formatDate (parseFrenchDate (natDigits d ++ (' ' :: frenchMonthName (m : Int))
          ++ (' ' :: natDigits y)))
        = natDigits d ++ (' ' :: frenchMonthName (m : Int)) ++ (' ' :: natDigits y) := by
  intro d m y hm1 hm2 hd1 hdm hy1 hy2
  have hname_ne : frenchMonthName (m : Int) ≠ [] := by
    interval_cases m <;> decide
  have hname_ws : ∀ x ∈ frenchMonthName (m : Int), ¬ isJsWs x := by
    interval_cases m <;> decide
  have hlower : lowerStr (frenchMonthName (m : Int)) = frenchMonthName (m : Int) := by
    interval_cases m <;> decide
  have hexact : monthExact (frenchMonthName (m : Int)) = (m : Int) := by
    interval_cases m <;> decide
  have hd_ne : natDigits d ≠ [] := natDigitsF_ne_nil _ _ (by omega)
  have hy_ne : natDigits y ≠ [] := natDigitsF_ne_nil _ _ (by omega)
  have hd_ws : ∀ x ∈ natDigits d, ¬ isJsWs x := by
    intro x hx
    simp [digit_not_ws x (natDigitsF_all_digit _ _ x hx)]
  have hy_ws : ∀ x ∈ natDigits y, ¬ isJsWs x := by
    intro x hx
    simp [digit_not_ws x (natDigitsF_all_digit _ _ x hx)]
  set name : Str := frenchMonthName (m : Int) with hname
  set s : Str := natDigits d ++ (' ' :: name) ++ (' ' :: natDigits y) with hs
  have hs_ne : s ≠ [] := by
    rw [hs]
    intro hcontra
    rcases List.append_eq_nil.mp hcontra with ⟨h1, _⟩
    rcases List.append_eq_nil.mp h1 with ⟨h2, _⟩
    exact hd_ne h2
  have htrim : jsTrim s = s := by
    apply jsTrim_eq_self
    · intro c hc
      have hhead : s.head? = (natDigits d).head? := by
        rw [hs]
        cases hdd : natDigits d with
        | nil => exact absurd hdd hd_ne
        | cons a as => simp
      rw [hhead] at hc
      exact hd_ws c (List.mem_of_mem_head? hc)
    · intro c hc
      have hlast : s.getLast? = (natDigits y).getLast? := by
        rw [hs]
        rw [List.getLast?_append_of_ne_nil _ (by simp)]
        cases hyy : natDigits y with
        | nil => exact absurd hyy hy_ne
        | cons z zs => simp
      rw [hlast] at hc
      exact hy_ws c (List.mem_of_mem_getLast? hc)
  have hsplit : splitWs (jsTrim s) = [natDigits d, name, natDigits y] := by
    rw [htrim, hs]
    exact splitWs_three _ _ _ hd_ne hd_ws hname_ne hname_ws hy_ne hy_ws
  have hparse : parseFrenchDate s = some ⟨(y : Int), (m : Int), (d : Int)⟩ := by
    unfold parseFrenchDate
    rw [if_neg hs_ne, hsplit]
    rw [if_neg (show ¬(([natDigits d, name, natDigits y] : List Str).length < 3) by simp)]
    simp only [List.getD_cons_zero, List.getD_cons_succ]
    rw [hlower, hexact, if_neg (show ¬((m : Int) = 0) by omega)]
    rw [parseIntJS_natDigits d, parseIntJS_natDigits y]
    dsimp only
    rw [if_neg (by
      simp only [Bool.or_eq_true, decide_eq_true_eq]
      omega)]
    rw [mkJsDate_in_range _ _ _ (by omega) (by omega) (by omega) (by omega) hdm]
  refine ⟨hparse, ?_⟩
  rw [hparse]
  unfold formatDate
  dsimp only
  rw [intToStr_natCast d, intToStr_natCast y, ← hname, hs]
  simp

/-- Witness for C5 at `5 mars 2020`. -/
theorem parseFrenchDate_formatDate_roundtrip_witness :
    parseFrenchDate (natDigits 5 ++ (' ' :: frenchMonthName ((3 : Nat) : Int))
        ++ (' ' :: natDigits 2020))
      = some ⟨((2020 : Nat) : Int), ((3 : Nat) : Int), ((5 : Nat) : Int)⟩ ∧
    formatDate (parseFrenchDate (natDigits 5 ++ (' ' :: frenchMonthName ((3 : Nat) : Int))
        ++ (' ' :: natDigits 2020)))
      = natDigits 5 ++ (' ' :: frenchMonthName ((3 : Nat) : Int)) ++ (' ' :: natDigits 2020) :=
  parseFrenchDate_formatDate_roundtrip 5 3 2020 (by omega) (by omega) (by omega)
    (by decide) (by omega) (by omega)

/-- C6 (amended): unparseable date strings (fewer than three tokens,
unknown month with no fuzzy match, or missing/zero day or year) parse to
`none`; a post whose date fails to parse keeps its raw date string as the
display string and receives the epoch-zero sort key; the newest-first sort
is descending by sort key, so such a post sorts no newer than any post
whose parsed date is on or after the epoch (it is NOT always oldest: a
post parsed to a pre-1970 date has a negative key and sorts older). -/
theorem unparseable_date_handling :
    (∀ s : Str, (splitWs (jsTrim s)).length < 3 → parseFrenchDate s = none) ∧
    (∀ s : Str,
      monthExact (lowerStr ((splitWs (jsTrim s)).getD 1 [])) = 0 →
      monthFuzzy (lowerStr ((splitWs (jsTrim s)).getD 1 [])) = 0 →
      parseFrenchDate s = none) ∧
    (∀ s : Str,
      (parseIntJS ((splitWs (jsTrim s)).getD 0 []) = none ∨
       parseIntJS ((splitWs (jsTrim s)).getD 0 []) = some 0) →
      parseFrenchDate s = none) ∧
    (∀ s : Str,
      (parseIntJS ((splitWs (jsTrim s)).getD 2 []) = none ∨
       parseIntJS ((splitWs (jsTrim s)).getD 2 []) = some 0) →
      parseFrenchDate s = none) ∧
    (∀ p : Post, parseFrenchDate p.date = none →
      displayDate (annotatePost p) = p.date ∧
      (annotatePost p).parsedDateStr = some p.date ∧
      sortKey (annotatePost p) = 0) ∧
    (∀ l : List Post,
      List.Pairwise (fun a b => sortKey b ≤ sortKey a) (sortPosts l)) ∧
    (∀ p q : Post, parseFrenchDate p.date = none →
      (∀ dt, parseFrenchDate q.date = some dt → 0 ≤ getTime dt) →
      sortKey (annotatePost p) ≤ sortKey (annotatePost q)) := by
  refine ⟨?_, ?_, ?_, ?_, ?_, ?_, ?_⟩
  · intro s hlen
    unfold parseFrenchDate
    by_cases hs0 : s = []
    · rw [if_pos hs0]
    · rw [if_neg hs0, if_pos hlen]
  · intro s hm0 hmf
    unfold parseFrenchDate
    by_cases hs0 : s = []
    · rw [if_pos hs0]
    · rw [if_neg hs0]
      by_cases hlen : (splitWs (jsTrim s)).length < 3
      · rw [if_pos hlen]
      · rw [if_neg hlen]
        dsimp only
        rw [if_pos hm0, hmf]
        cases parseIntJS ((splitWs (jsTrim s)).getD 0 []) <;>
          cases parseIntJS ((splitWs (jsTrim s)).getD 2 []) <;> simp
  · intro s hday
    unfold parseFrenchDate
    by_cases hs0 : s = []
    · rw [if_pos hs0]
    · rw [if_neg hs0]
      by_cases hlen : (splitWs (jsTrim s)).length < 3
      · rw [if_pos hlen]
      · rw [if_neg hlen]
        dsimp only
        rcases hday with h | h <;> rw [h] <;>
          cases parseIntJS ((splitWs (jsTrim s)).getD 2 []) <;> simp
  · intro s hyear
    unfold parseFrenchDate
    by_cases hs0 : s = []
    · rw [if_pos hs0]
    · rw [if_neg hs0]
      by_cases hlen : (splitWs (jsTrim s)).length < 3
      · rw [if_pos hlen]
      · rw [if_neg hlen]
        dsimp only
        rcases hyear with h | h <;> rw [h] <;>
          cases parseIntJS ((splitWs (jsTrim s)).getD 0 []) <;> simp
  · intro p hp
    unfold annotatePost displayDate sortKey
    rw [hp]
    exact ⟨rfl, rfl, rfl⟩
  · intro l
    unfold sortPosts
    haveI : IsTotal Post (fun a b => sortKey b ≤ sortKey a) :=
      ⟨fun a b => le_total (sortKey b) (sortKey a)⟩
    haveI : IsTrans Post (fun a b => sortKey b ≤ sortKey a) :=
      ⟨fun _ _ _ h1 h2 => le_trans h2 h1⟩
    exact List.sorted_insertionSort _ l
  · intro p q hp hq
    have hkp : sortKey (annotatePost p) = 0 := by
      unfold annotatePost sortKey
      rw [hp]
    have hkq : 0 ≤ sortKey (annotatePost q) := by
      unfold annotatePost sortKey
      cases hqd : parseFrenchDate q.date with
      | none => simp
      | some dt => simpa using hq dt hqd
    omega

/-- Witness for C6: an unparseable date keeps its raw display string and
gets sort key zero. -/
theorem unparseable_date_handling_witness :
    displayDate (annotatePost samplePostBadDate) = samplePostBadDate.date ∧
    (annotatePost samplePostBadDate).parsedDateStr = some samplePostBadDate.date ∧
    sortKey (annotatePost samplePostBadDate) = 0 :=
  unparseable_date_handling.2.2.2.2.1 samplePostBadDate (by decide)

/-- C6 counterexample: a post with a pre-1970 parseable date sorts older
(later in the newest-first order) than a post whose date fails to parse —
the unparseable post does not sort as oldest. -/
theorem unparseable_date_sort_counterexample :
    parseFrenchDate samplePostBadDate.date = none ∧
    parseFrenchDate samplePostOld.date
      = some ⟨(1969 : Int), (12 : Int), (31 : Int)⟩ ∧
    getTime ⟨(1969 : Int), (12 : Int), (31 : Int)⟩ < 0 ∧
    sortPosts [annotatePost samplePostOld, annotatePost samplePostBadDate]
      = [annotatePost samplePostBadDate, annotatePost samplePostOld] := by
  refine ⟨by decide, by decide, by decide, by decide⟩

theorem buildPages_map_fst (m : List (Str × Str)) (d : List Str) :
    ∀ (b : Option Post) (l : List Post),
      (buildPages m d b l).map Prod.fst = l.map Post.slug := by
  intro b l
  induction l generalizing b with
  | nil => rfl
  | cons p rest ih => simp [buildPages, ih]

theorem sitePosts_slug_not_attach (data : PostData) (attach : List Str) :
    ∀ p ∈ sitePosts data attach, ¬(p.slug ∈ attach) := by
  intro p hp
  unfold sitePosts at hp
  have hp2 : p ∈ (data.posts.filter (isBlogPost attach)).map annotatePost := by
    have hperm := List.perm_insertionSort
      (fun a b : Post => sortKey b ≤ sortKey a)
      ((data.posts.filter (isBlogPost attach)).map annotatePost)
    exact hperm.mem_iff.mp hp
  obtain ⟨q, hq, rfl⟩ := List.mem_map.mp hp2
  have hq2 : isBlogPost attach q = true := List.of_mem_filter hq
  unfold isBlogPost at hq2
  have : ¬(attach.contains q.slug = true) := by
    simpa using hq2
  intro hmem
  exact this (List.elem_eq_true_of_mem hmem)

/-- C8: a post whose slug is in the attachment exclusion list never
produces an output page, never appears among the posts the homepage lists,
and never gets a sitemap `<loc>` entry; homepage and sitemap are rendered
from exactly that filtered list. -/
theorem attachment_slug_exclusion :
    ∀ (data : PostData) (attach : List Str) (disk : List Str) (slug : Str),
      slug ∈ attach →
      slug ∉ ((generateSite data attach disk).pages.map Prod.fst) ∧
      slug ∉ ((generateSite data attach disk).listed.map Post.slug) ∧
      (SITE_BASE ++ slug ++ ("/".data)) ∉
        sitemapLocs ((generateSite data attach disk).listed) ∧
      (generateSite data attach disk).homepage
        = generateHomepage ((generateSite data attach disk).listed) ∧
      (generateSite data attach disk).sitemap
        = sitemapXml ((generateSite data attach disk).listed) := by
  intro data attach disk slug hslug
  have hkey : ∀ p ∈ sitePosts data attach, p.slug ≠ slug := by
    intro p hp hcontra
    exact sitePosts_slug_not_attach data attach p hp (hcontra ▸ hslug)
  have hlisted : (generateSite data attach disk).listed = sitePosts data attach := rfl
  refine ⟨?_, ?_, ?_, rfl, rfl⟩
  · rw [show (generateSite data attach disk).pages
        = buildPages data.image_map disk none (sitePosts data attach) from rfl]
    rw [buildPages_map_fst]
    intro hmem
    obtain ⟨p, hp, hps⟩ := List.mem_map.mp hmem
    exact hkey p hp hps
  · rw [hlisted]
    intro hmem
    obtain ⟨p, hp, hps⟩ := List.mem_map.mp hmem
    exact hkey p hp hps
  · rw [hlisted]
    intro hmem
    unfold sitemapLocs at hmem
    rcases List.mem_cons.mp hmem with h | h
    · have := congrArg List.length h.symm
      simp [SITE_BASE] at this
    · obtain ⟨p, hp, hps⟩ := List.mem_map.mp h
      unfold postLoc at hps
      have h1 : (p.slug : Str) ++ ("/".data) = slug ++ ("/".data) := by
        have := hps
        rw [List.append_assoc, List.append_assoc] at this
        exact List.append_cancel_left this
      have h2 : p.slug = slug := List.append_cancel_right h1
      exact hkey p hp h2

/-- Witness for C8 at a concrete dataset containing an excluded post. -/
theorem attachment_slug_exclusion_witness :
    ("bad".data : Str) ∉
      ((generateSite ⟨[samplePostBadDate, samplePostOld], []⟩ ["bad".data] []).pages.map
        Prod.fst) ∧
    ("bad".data : Str) ∉
      ((generateSite ⟨[samplePostBadDate, samplePostOld], []⟩ ["bad".data] []).listed.map
        Post.slug) :=
  ⟨(attachment_slug_exclusion ⟨[samplePostBadDate, samplePostOld], []⟩ ["bad".data] []
      ("bad".data) (by decide)).1,
   (attachment_slug_exclusion ⟨[samplePostBadDate, samplePostOld], []⟩ ["bad".data] []
      ("bad".data) (by decide)).2.1⟩

theorem findLocalImage_disk_congr (url : Str) (m : List (Str × Str))
    (d1 d2 : List Str) (h : ∀ f : Str, d1.contains f = d2.contains f) :
    findLocalImage url m d1 = findLocalImage url m d2 := by
  unfold findLocalImage
  dsimp only
  rw [h (sanitizeChars (basename (beforeQuery url)))]

theorem imgStep_disk_congr (m : List (Str × Str)) (d1 d2 : List Str)
    (h : ∀ f : Str, d1.contains f = d2.contains f) :
    imgStep m d1 = imgStep m d2 := by
  funext f i
  unfold imgStep
  cases hn : findNodeF f i with
  | none => rfl
  | some node =>
    cases node with
    | text j s => rfl
    | elem j tag attrs kids =>
      dsimp only
      rw [findLocalImage_disk_congr _ _ _ _ h]

/-- C1 (amended): `cleanContentHtml` is a deterministic function of the
input HTML, the image map, and the set of files present in the output
images directory — two directory listings with the same membership give
identical output.  (It is NOT independent of the directory: see the
counterexample.) -/
theorem cleanContentHtml_deterministic :
    ∀ (htmlStr : Str) (m : List (Str × Str)) (d1 d2 : List Str),
      (∀ f : Str, d1.contains f = d2.contains f) →
      cleanContentHtml htmlStr m d1 = cleanContentHtml htmlStr m d2 := by
  intro htmlStr m d1 d2 h
  unfold cleanContentHtml
  rw [imgStep_disk_congr m d1 d2 h]

/-- Witness for C1: two different directory listings with equal membership
give the same cleaned output. -/
theorem cleanContentHtml_deterministic_witness :
    cleanContentHtml ("<img src=\"https://e/a.jpg\">".data) []
        ["a.jpg".data]
      = cleanContentHtml ("<img src=\"https://e/a.jpg\">".data) []
        ["a.jpg".data, "a.jpg".data] :=
  cleanContentHtml_deterministic ("<img src=\"https://e/a.jpg\">".data) []
    ["a.jpg".data] ["a.jpg".data, "a.jpg".data]
    (by
      intro f
      by_cases hb : (f == ("a.jpg".data)) = true <;>
        simp [List.contains_cons, hb])

/-- C1 counterexample: the cleaned output does depend on the contents of
the output images directory — with an empty image map, an image whose file
exists on disk is kept (stage 4 of `findLocalImage`), while with an empty
directory it is removed. -/
theorem cleanContentHtml_disk_counterexample :
    cleanContentHtml ("<img src=\"https://e/a.jpg\">".data) [] []
      ≠ cleanContentHtml ("<img src=\"https://e/a.jpg\">".data) [] ["a.jpg".data] ∧
    cleanContentHtml ("<img src=\"https://e/a.jpg\">".data) [] [] = [] ∧
    cleanContentHtml ("<img src=\"https://e/a.jpg\">".data) [] ["a.jpg".data]
      = "<img src=\"/images/a.jpg\">".data := by
  refine ⟨by decide, by decide, by decide⟩

theorem startsWith_single (c x : Char) (xs : Str) :
    startsWith [c] (x :: xs) = (c == x) := by
  simp [startsWith, List.isPrefixOf]

theorem replaceAllFuel_single (c : Char) (rep : Str) :
    ∀ (s : Str) (fuel : Nat), s.length < fuel →
      replaceAllFuel [c] rep fuel s
        = ((s.map (fun x => if x = c then rep else [x])).flatten) := by
  intro s
  induction s with
  | nil =>
    intro fuel hf
    cases fuel with
    | zero => omega
    | succ f => rfl
  | cons x xs ih =>
    intro fuel hf
    cases fuel with
    | zero => omega
    | succ f =>
      unfold replaceAllFuel
      rw [startsWith_single]
      by_cases hxc : x = c
      · have hbeq : (c == x) = true := by simp [hxc]
        rw [hbeq, if_pos rfl]
        have hdrop : (xs.drop (([c] : Str).length - 1)) = xs := by simp
        rw [hdrop, ih f (by simpa using hf)]
        simp [hxc]
      · have hbeq : (c == x) = false :=
          beq_eq_false_iff_ne.mpr (fun hcx => hxc hcx.symm)
        rw [hbeq, if_neg (by decide)]
        rw [ih f (by simpa using hf)]
        simp [hxc]

theorem replaceAll_single (c : Char) (rep : Str) (s : Str) :
    replaceAllStr [c] rep s
      = ((s.map (fun x => if x = c then rep else [x])).flatten) := by
  unfold replaceAllStr
  rw [if_neg (by simp)]
  exact replaceAllFuel_single c rep s (s.length + 1) (by omega)

theorem mem_escStage (c x : Char) (rep : Str) (s : Str)
    (h : x ∈ ((s.map (fun ch => if ch = c then rep else [ch])).flatten)) :
    x ∈ rep ∨ (x ∈ s ∧ x ≠ c) := by
  obtain ⟨piece, hpiece, hx⟩ := List.mem_flatten.mp h
  obtain ⟨ch, hch, rfl⟩ := List.mem_map.mp hpiece
  by_cases hcc : ch = c
  · rw [if_pos hcc] at hx
    exact Or.inl hx
  · rw [if_neg hcc] at hx
    simp at hx
    subst hx
    exact Or.inr ⟨hch, hcc⟩

theorem escapeHtml_no_markup (s : Str) :
    ¬('<' ∈ escapeHtml s) ∧ ¬('>' ∈ escapeHtml s) ∧ ¬('"' ∈ escapeHtml s) := by
  unfold escapeHtml
  rw [replaceAll_single, replaceAll_single, replaceAll_single, replaceAll_single]
  refine ⟨?_, ?_, ?_⟩
  · intro hmem
    rcases mem_escStage _ _ _ _ hmem with h | ⟨h, _⟩
    · simp at h
    rcases mem_escStage _ _ _ _ h with h2 | ⟨h2, _⟩
    · simp at h2
    rcases mem_escStage _ _ _ _ h2 with h3 | ⟨_, h3⟩
    · simp at h3
    · exact h3 rfl
  · intro hmem
    rcases mem_escStage _ _ _ _ hmem with h | ⟨h, _⟩
    · simp at h
    rcases mem_escStage _ _ _ _ h with h2 | ⟨_, h2⟩
    · simp at h2
    · exact h2 rfl
  · intro hmem
    rcases mem_escStage _ _ _ _ hmem with h | ⟨_, h⟩
    · simp at h
    · exact h rfl

theorem countChar_escapeHtml_lt (s : Str) : countChar '<' (escapeHtml s) = 0 := by
  unfold countChar
  exact List.count_eq_zero.mpr (escapeHtml_no_markup s).1

theorem countChar_escapeHtml_quot (s : Str) : countChar '"' (escapeHtml s) = 0 := by
  unfold countChar
  exact List.count_eq_zero.mpr (escapeHtml_no_markup s).2.2

theorem flatten_map_flatten {α β γ : Type} (f : α → List β) (g : β → List γ) :
    ∀ (l : List α),
      (((l.map f).flatten).map g).flatten
        = (l.map (fun x => (((f x).map g).flatten))).flatten := by
  intro l
  induction l with
  | nil => rfl
  | cons x xs ih =>
    simp only [List.map_cons, List.flatten_cons, List.map_append,
      List.flatten_append, ih]

theorem escapeHtml_eq_escapeChar (s : Str) :
    escapeHtml s = (s.map escapeChar).flatten := by
  unfold escapeHtml
  rw [replaceAll_single, replaceAll_single, replaceAll_single, replaceAll_single]
  rw [flatten_map_flatten, flatten_map_flatten, flatten_map_flatten]
  congr 1
  apply List.map_congr_left
  intro x _
  by_cases h1 : x = '&'
  · subst h1; rfl
  by_cases h2 : x = '<'
  · subst h2; rfl
  by_cases h3 : x = '>'
  · subst h3; rfl
  by_cases h4 : x = '"'
  · subst h4; rfl
  simp [escapeChar, h1, h2, h3, h4]

theorem countChar_append (c : Char) (a b : Str) :
    countChar c (a ++ b) = countChar c a + countChar c b := by
  simp [countChar]

theorem scrubPost_content (p : Post) :
    (scrubPost p).content_html = p.content_html := rfl

theorem scrubPost_slug (p : Post) : (scrubPost p).slug = p.slug := rfl

theorem scrubPost_comments (p : Post) :
    (scrubPost p).comments = p.comments.map scrubComment := rfl

theorem htmlHead_count (q : Char) (hq : ∀ s, countChar q (escapeHtml s) = 0)
    (t1 t2 desc : Str) :
    countChar q (htmlHead t1 desc) = countChar q (htmlHead t2 desc) := by
  unfold htmlHead
  dsimp only
  simp only [countChar_append, hq]

theorem navPrevPart_count (q : Char) (hq : ∀ s, countChar q (escapeHtml s) = 0)
    (p : Option Post) :
    countChar q (navPrevPart p) = countChar q (navPrevPart (p.map scrubPost)) := by
  cases p with
  | none => rfl
  | some pp =>
    show countChar q (navPrevPart (some pp))
      = countChar q (navPrevPart (some (scrubPost pp)))
    unfold navPrevPart
    simp only [countChar_append, hq, scrubPost_slug]

theorem navNextPart_count (q : Char) (hq : ∀ s, countChar q (escapeHtml s) = 0)
    (p : Option Post) :
    countChar q (navNextPart p) = countChar q (navNextPart (p.map scrubPost)) := by
  cases p with
  | none => rfl
  | some np =>
    show countChar q (navNextPart (some np))
      = countChar q (navNextPart (some (scrubPost np)))
    unfold navNextPart
    simp only [countChar_append, hq, scrubPost_slug]

theorem navBlock_count (q : Char) (hq : ∀ s, countChar q (escapeHtml s) = 0)
    (prev next : Option Post) :
    countChar q (navBlock prev next)
      = countChar q (navBlock (prev.map scrubPost) (next.map scrubPost)) := by
  unfold navBlock
  have hisnone : ∀ o : Option Post, (o.map scrubPost).isNone = o.isNone := by
    intro o
    cases o <;> rfl
  rw [hisnone, hisnone]
  by_cases h : (prev.isNone && next.isNone) = true
  · rw [if_pos h, if_pos h]
  · rw [if_neg h, if_neg h]
    simp only [countChar_append, navPrevPart_count q hq prev,
      navNextPart_count q hq next]

theorem commentBlock_count (q : Char) (hq : ∀ s, countChar q (escapeHtml s) = 0)
    (c : JsComment) :
    countChar q (commentBlock c) = countChar q (commentBlock (scrubComment c)) := by
  unfold commentBlock scrubComment
  simp only [countChar_append, hq]

theorem commentsList_count (q : Char) (hq : ∀ s, countChar q (escapeHtml s) = 0) :
    ∀ cs : List JsComment,
      countChar q ((cs.map commentBlock).flatten)
        = countChar q (((cs.map scrubComment).map commentBlock).flatten) := by
  intro cs
  induction cs with
  | nil => rfl
  | cons c rest ih =>
    simp only [List.map_cons, List.flatten_cons, countChar_append, ih,
      commentBlock_count q hq c]

theorem commentsBlock_count (q : Char) (hq : ∀ s, countChar q (escapeHtml s) = 0)
    (cs : List JsComment) :
    countChar q (commentsBlock cs)
      = countChar q (commentsBlock (cs.map scrubComment)) := by
  unfold commentsBlock
  rw [List.length_map]
  by_cases h0 : cs.length = 0
  · rw [if_pos h0, if_pos h0]
  · rw [if_neg h0, if_neg h0]
    dsimp only
    simp only [countChar_append, commentsList_count q hq cs]

theorem generatePostPage_count (q : Char)
    (hq : ∀ s, countChar q (escapeHtml s) = 0)
    (p : Post) (prev next : Option Post) (m : List (Str × Str)) (d : List Str) :
    countChar q (generatePostPage p prev next m d)
      = countChar q (generatePostPage (scrubPost p) (prev.map scrubPost)
          (next.map scrubPost) m d) := by
  unfold generatePostPage
  dsimp only
  simp only [scrubPost_content, scrubPost_comments, countChar_append]
  rw [htmlHead_count q hq (p.title ++ (" | Les petits vendredis".data))
    ((scrubPost p).title ++ (" | Les petits vendredis".data))
    (getExcerpt p.content_html 160)]
  rw [navBlock_count q hq prev next]
  rw [commentsBlock_count q hq p.comments]
  simp only [hq]

theorem homepageItem_count (q : Char) (hq : ∀ s, countChar q (escapeHtml s) = 0)
    (p : Post) :
    countChar q (homepageItem p) = countChar q (homepageItem (scrubPost p)) := by
  unfold homepageItem
  simp only [countChar_append, hq, scrubPost_slug, scrubPost_content]

theorem homepageItems_count (q : Char) (hq : ∀ s, countChar q (escapeHtml s) = 0) :
    ∀ ps : List Post,
      countChar q ((ps.map homepageItem).flatten)
        = countChar q (((ps.map scrubPost).map homepageItem).flatten) := by
  intro ps
  induction ps with
  | nil => rfl
  | cons p rest ih =>
    simp only [List.map_cons, List.flatten_cons, countChar_append, ih,
      homepageItem_count q hq p]

theorem generateHomepage_count (q : Char)
    (hq : ∀ s, countChar q (escapeHtml s) = 0) (ps : List Post) :
    countChar q (generateHomepage ps)
      = countChar q (generateHomepage (ps.map scrubPost)) := by
  unfold generateHomepage
  simp only [countChar_append]
  rw [homepageItems_count q hq ps]

/-- C10: every escaped interpolation point is harmless — `escapeHtml` is
exactly the character-wise entity encoding of `&`, `<`, `>` and `"`
(all other characters, single quotes included, pass through), its output
contains no raw `<`, `>` or `"`; and the five escaped fields (title,
display date, excerpt, comment author, comment text) contribute no `<` or
`"` characters to a generated post page or homepage: blanking them all
leaves the counts of those characters unchanged. -/
theorem escaped_interpolation :
    (∀ s : Str, escapeHtml s = (s.map escapeChar).flatten) ∧
    (escapeChar '&' = "&amp;".data ∧ escapeChar '<' = "&lt;".data ∧
     escapeChar '>' = "&gt;".data ∧ escapeChar '"' = "&quot;".data ∧
     (∀ ch : Char, ch ≠ '&' → ch ≠ '<' → ch ≠ '>' → ch ≠ '"' →
       escapeChar ch = [ch])) ∧
    (∀ s : Str, ¬('<' ∈ escapeHtml s) ∧ ¬('>' ∈ escapeHtml s) ∧
      ¬('"' ∈ escapeHtml s)) ∧
    (∀ (p : Post) (prev next : Option Post) (m : List (Str × Str))
       (d : List Str),
      countChar '<' (generatePostPage p prev next m d)
        = countChar '<' (generatePostPage (scrubPost p) (prev.map scrubPost)
            (next.map scrubPost) m d) ∧
      countChar '"' (generatePostPage p prev next m d)
        = countChar '"' (generatePostPage (scrubPost p) (prev.map scrubPost)
            (next.map scrubPost) m d)) ∧
    (∀ ps : List Post,
      countChar '<' (generateHomepage ps)
        = countChar '<' (generateHomepage (ps.map scrubPost)) ∧
      countChar '"' (generateHomepage ps)
        = countChar '"' (generateHomepage (ps.map scrubPost))) := by
  refine ⟨escapeHtml_eq_escapeChar, ⟨rfl, rfl, rfl, rfl, ?_⟩,
    escapeHtml_no_markup, ?_, ?_⟩
  · intro ch h1 h2 h3 h4
    simp [escapeChar, h1, h2, h3, h4]
  · intro p prev next m d
    exact ⟨generatePostPage_count '<' countChar_escapeHtml_lt p prev next m d,
      generatePostPage_count '"' countChar_escapeHtml_quot p prev next m d⟩
  · intro ps
    exact ⟨generateHomepage_count '<' countChar_escapeHtml_lt ps,
      generateHomepage_count '"' countChar_escapeHtml_quot ps⟩

/-- Witness for C10: a character that is not one of the four escaped ones
(such as a letter) passes through `escapeChar` unchanged. -/
theorem escaped_interpolation_witness :
    escapeChar 'x' = ['x'] :=
  escaped_interpolation.2.1.2.2.2.2 'x' (by decide) (by decide) (by decide)
    (by decide)

theorem idsT_elem (j : Nat) (tag : Str) (attrs : List (Str × Str))
    (kids : HForest) : idsT (.elem j tag attrs kids) = j :: idsF kids := rfl

theorem present_iff (f : HForest) (i : Nat) : present f i = true ↔ i ∈ idsF f := by
  unfold present
  exact List.elem_iff

mutual
theorem removeIdT_ids : ∀ (t : HTree) (i : Nat) (n : HTree),
    removeIdT t i = some n → ∀ x ∈ idsT n, x ∈ idsT t
  | .text j s, i, n => by
    intro h x hx
    unfold removeIdT at h
    by_cases hj : j = i
    · rw [if_pos hj] at h
      exact absurd h (by simp)
    · rw [if_neg hj] at h
      have hn : n = .text j s := (Option.some.inj h).symm
      subst hn
      exact hx
  | .elem j tag attrs kids, i, n => by
    intro h x hx
    unfold removeIdT at h
    by_cases hj : j = i
    · rw [if_pos hj] at h
      exact absurd h (by simp)
    · rw [if_neg hj] at h
      have hn : n = .elem j tag attrs (removeIdF kids i) := (Option.some.inj h).symm
      subst hn
      unfold idsT at hx ⊢
      rcases List.mem_cons.mp hx with h1 | h2
      · exact List.mem_cons.mpr (Or.inl h1)
      · exact List.mem_cons.mpr (Or.inr (removeIdF_ids kids i x h2))
theorem removeIdF_ids : ∀ (f : HForest) (i : Nat) (x : Nat),
    x ∈ idsF (removeIdF f i) → x ∈ idsF f
  | .nil, i, x => by
    intro hx
    simpa [removeIdF] using hx
  | .cons h t, i, x => by
    intro hx
    unfold removeIdF at hx
    unfold idsF
    cases hh : removeIdT h i with
    | some h2 =>
      rw [hh] at hx
      unfold idsF at hx
      rcases List.mem_append.mp hx with h1 | h2m
      · exact List.mem_append.mpr (Or.inl (removeIdT_ids h i h2 hh x h1))
      · exact List.mem_append.mpr (Or.inr (removeIdF_ids t i x h2m))
    | none =>
      rw [hh] at hx
      exact List.mem_append.mpr (Or.inr (removeIdF_ids t i x hx))
end

mutual
theorem removeIdT_not_mem : ∀ (t : HTree) (i : Nat) (n : HTree),
    removeIdT t i = some n → ¬(i ∈ idsT n)
  | .text j s, i, n => by
    intro h hx
    unfold removeIdT at h
    by_cases hj : j = i
    · rw [if_pos hj] at h
      exact absurd h (by simp)
    · rw [if_neg hj] at h
      have hn : n = .text j s := (Option.some.inj h).symm
      subst hn
      unfold idsT at hx
      simp at hx
      exact hj hx.symm
  | .elem j tag attrs kids, i, n => by
    intro h hx
    unfold removeIdT at h
    by_cases hj : j = i
    · rw [if_pos hj] at h
      exact absurd h (by simp)
    · rw [if_neg hj] at h
      have hn : n = .elem j tag attrs (removeIdF kids i) := (Option.some.inj h).symm
      subst hn
      unfold idsT at hx
      rcases List.mem_cons.mp hx with h1 | h2
      · exact hj h1.symm
      · exact removeIdF_not_mem kids i h2
theorem removeIdF_not_mem : ∀ (f : HForest) (i : Nat),
    ¬(i ∈ idsF (removeIdF f i))
  | .nil, i => by simp [removeIdF, idsF]
  | .cons h t, i => by
    intro hx
    unfold removeIdF at hx
    cases hh : removeIdT h i with
    | some h2 =>
      rw [hh] at hx
      unfold idsF at hx
      rcases List.mem_append.mp hx with h1 | h2m
      · exact removeIdT_not_mem h i h2 hh h1
      · exact removeIdF_not_mem t i h2m
    | none =>
      rw [hh] at hx
      exact removeIdF_not_mem t i hx
end

mutual
theorem editAttrsT_ids : ∀ (t : HTree) (i : Nat)
    (g : List (Str × Str) → List (Str × Str)),
    idsT (editAttrsT t i g) = idsT t
  | .text j s, i, g => rfl
  | .elem j tag attrs kids, i, g => by
    unfold editAttrsT
    by_cases hj : j = i
    · rw [if_pos hj]
      unfold idsT
      rw [editAttrsF_ids kids i g]
    · rw [if_neg hj]
      unfold idsT
      rw [editAttrsF_ids kids i g]
theorem editAttrsF_ids : ∀ (f : HForest) (i : Nat)
    (g : List (Str × Str) → List (Str × Str)),
    idsF (editAttrsF f i g) = idsF f
  | .nil, i, g => rfl
  | .cons h t, i, g => by
    unfold editAttrsF idsF
    rw [editAttrsT_ids h i g, editAttrsF_ids t i g]
end

mutual
theorem findNodeT_ids : ∀ (t : HTree) (i : Nat) (n : HTree),
    findNodeT t i = some n → ∀ x ∈ idsT n, x ∈ idsT t
  | .text j s, i, n => by
    intro h x hx
    unfold findNodeT at h
    by_cases hj : j = i
    · rw [if_pos hj] at h
      have hn : n = .text j s := (Option.some.inj h).symm
      subst hn
      exact hx
    · rw [if_neg hj] at h
      exact absurd h (by simp)
  | .elem j tag attrs kids, i, n => by
    intro h x hx
    unfold findNodeT at h
    by_cases hj : j = i
    · rw [if_pos hj] at h
      have hn : n = .elem j tag attrs kids := (Option.some.inj h).symm
      subst hn
      exact hx
    · rw [if_neg hj] at h
      unfold idsT
      exact List.mem_cons.mpr (Or.inr (findNodeF_ids kids i n h x hx))
theorem findNodeF_ids : ∀ (f : HForest) (i : Nat) (n : HTree),
    findNodeF f i = some n → ∀ x ∈ idsT n, x ∈ idsF f
  | .nil, i, n => by
    intro h
    simp [findNodeF] at h
  | .cons h t, i, n => by
    intro hf x hx
    unfold findNodeF at hf
    unfold idsF
    cases hh : findNodeT h i with
    | some n2 =>
      rw [hh] at hf
      have hn : n2 = n := Option.some.inj hf
      exact List.mem_append.mpr (Or.inl (findNodeT_ids h i n (hn ▸ hh) x hx))
    | none =>
      rw [hh] at hf
      exact List.mem_append.mpr (Or.inr (findNodeF_ids t i n hf x hx))
end

mutual
theorem replaceAtT_ids : ∀ (t : HTree) (i : Nat) (n : HTree) (x : Nat),
    x ∈ idsT (replaceAtT t i n) → x ∈ idsT t ∨ x ∈ idsT n
  | .text j s, i, n, x => by
    intro hx
    unfold replaceAtT at hx
    by_cases hj : j = i
    · rw [if_pos hj] at hx
      exact Or.inr hx
    · rw [if_neg hj] at hx
      exact Or.inl hx
  | .elem j tag attrs kids, i, n, x => by
    intro hx
    unfold replaceAtT at hx
    by_cases hj : j = i
    · rw [if_pos hj] at hx
      exact Or.inr hx
    · rw [if_neg hj] at hx
      rw [idsT_elem] at hx ⊢
      rcases List.mem_cons.mp hx with h1 | h2
      · exact Or.inl (List.mem_cons.mpr (Or.inl h1))
      · rcases replaceAtF_ids kids i n x h2 with h3 | h3
        · exact Or.inl (List.mem_cons.mpr (Or.inr h3))
        · exact Or.inr h3
theorem replaceAtF_ids : ∀ (f : HForest) (i : Nat) (n : HTree) (x : Nat),
    x ∈ idsF (replaceAtF f i n) → x ∈ idsF f ∨ x ∈ idsT n
  | .nil, i, n, x => by
    intro hx
    simp [replaceAtF, idsF] at hx
  | .cons h t, i, n, x => by
    intro hx
    unfold replaceAtF idsF at hx
    unfold idsF
    rcases List.mem_append.mp hx with h1 | h2
    · rcases replaceAtT_ids h i n x h1 with h3 | h3
      · exact Or.inl (List.mem_append.mpr (Or.inl h3))
      · exact Or.inr h3
    · rcases replaceAtF_ids t i n x h2 with h3 | h3
      · exact Or.inl (List.mem_append.mpr (Or.inr h3))
      · exact Or.inr h3
end

theorem imgStep_ids_subset (m : List (Str × Str)) (d : List Str)
    (f : HForest) (i : Nat) (x : Nat)
    (hx : x ∈ idsF (imgStep m d f i)) : x ∈ idsF f := by
  unfold imgStep at hx
  cases hn : findNodeF f i with
  | none =>
    rw [hn] at hx
    exact hx
  | some node =>
    rw [hn] at hx
    cases node with
    | text j s => exact hx
    | elem j tag attrs kids =>
      dsimp only at hx
      by_cases hsrc : (attrKey attrs ("src".data)).getD [] = []
      · rw [if_pos hsrc] at hx
        exact hx
      · rw [if_neg hsrc] at hx
        cases hloc : findLocalImage ((attrKey attrs ("src".data)).getD []) m d with
        | some localFile =>
          rw [hloc] at hx
          dsimp only at hx
          cases hca : closestTag (editAttrsF f i (imgAttrRewrite localFile)) i
              ("a".data) with
          | none =>
            rw [hca] at hx
            dsimp only at hx
            rw [editAttrsF_ids] at hx
            exact hx
          | some aid =>
            rw [hca] at hx
            dsimp only at hx
            cases hfn : findNodeF (editAttrsF f i (imgAttrRewrite localFile)) aid with
            | none =>
              rw [hfn] at hx
              dsimp only at hx
              rw [editAttrsF_ids] at hx
              exact hx
            | some anode =>
              rw [hfn] at hx
              cases anode with
              | text j2 s2 =>
                dsimp only at hx
                rw [editAttrsF_ids] at hx
                exact hx
              | elem j2 tag2 aattrs akids =>
                dsimp only at hx
                by_cases hext : endsWithImageExt
                    ((attrKey aattrs ("href".data)).getD []) = true
                · rw [if_pos hext] at hx
                  cases hfi : findNodeF (editAttrsF f i (imgAttrRewrite localFile)) i with
                  | none =>
                    rw [hfi] at hx
                    dsimp only at hx
                    rw [editAttrsF_ids] at hx
                    exact hx
                  | some imgNode =>
                    rw [hfi] at hx
                    dsimp only at hx
                    rcases replaceAtF_ids _ aid imgNode x hx with h1 | h1
                    · rw [editAttrsF_ids] at h1
                      exact h1
                    · have h2 := findNodeF_ids _ i imgNode hfi x h1
                      rw [editAttrsF_ids] at h2
                      exact h2
                · rw [if_neg hext] at hx
                  rw [editAttrsF_ids] at hx
                  exact hx
        | none =>
          rw [hloc] at hx
          dsimp only at hx
          cases hfig : closestTag f i ("figure".data) with
          | some fid =>
            rw [hfig] at hx
            dsimp only at hx
            exact removeIdF_ids f fid x hx
          | none =>
            rw [hfig] at hx
            dsimp only at hx
            cases hac : closestTag f i ("a".data) with
            | some aid =>
              rw [hac] at hx
              dsimp only at hx
              exact removeIdF_ids f aid x hx
            | none =>
              rw [hac] at hx
              dsimp only at hx
              exact removeIdF_ids f i x hx

theorem runSnap_not_mem (step : HForest → Nat → HForest)
    (hstep : ∀ f i x, x ∈ idsF (step f i) → x ∈ idsF f) :
    ∀ (snap : List Nat) (f : HForest) (x : Nat),
      ¬(x ∈ idsF f) → ¬(x ∈ idsF (runSnap f snap step)) := by
  intro snap
  induction snap with
  | nil => intro f x h; exact h
  | cons i rest ih =>
    intro f x h
    have h2 : ¬(x ∈ idsF (step f i)) := fun hc => h (hstep f i x hc)
    exact ih (step f i) x h2

/-- C3 (amended): for an image element that is still attached when the
image-fixing loop reaches it, whose non-empty `src` fails all four
resolution stages of `findLocalImage`, the loop iteration removes the
image's nearest enclosing `figure` if one exists, else its nearest
enclosing anchor if one exists, else the image tag itself, and performs
no further processing of that tag in the iteration (the run continues
exactly as on the pruned tree); the removed node stays absent for the
rest of the image phase.  In particular an unresolvable image wrapped in
a bare `figure` leaves no trace of the figure in the cleaned output
(last conjunct, on the concrete sample).  The original claim quantified
over every image element of the input fragment; that fails when an
earlier cleaning phase detaches the image first — see the
counterexample. -/
theorem unresolvable_image_removal
    (m : List (Str × Str)) (d : List Str) (t : HForest) (b : Nat)
    (post : List Nat) (tag : Str) (attrs : List (Str × Str))
    (kids : HForest) (src : Str)
    (hfind : findNodeF t b = some (.elem b tag attrs kids))
    (hsrc : attrKey attrs ("src".data) = some src)
    (hne : src ≠ [])
    (hloc : findLocalImage src m d = none) :
    ((∀ fid, closestTag t b ("figure".data) = some fid →
        runSnap t (b :: post) (imgStep m d)
          = runSnap (removeIdF t fid) post (imgStep m d)
        ∧ present (runSnap t (b :: post) (imgStep m d)) fid = false)
     ∧ (closestTag t b ("figure".data) = none →
        ∀ aid, closestTag t b ("a".data) = some aid →
          runSnap t (b :: post) (imgStep m d)
            = runSnap (removeIdF t aid) post (imgStep m d)
          ∧ present (runSnap t (b :: post) (imgStep m d)) aid = false)
     ∧ (closestTag t b ("figure".data) = none →
        closestTag t b ("a".data) = none →
          runSnap t (b :: post) (imgStep m d)
            = runSnap (removeIdF t b) post (imgStep m d)
          ∧ present (runSnap t (b :: post) (imgStep m d)) b = false))
    ∧ cleanContentHtml figWrapSample [] [] = [] := by
  have hbase : imgStep m d t b =
      (match closestTag t b ("figure".data) with
       | some fid => removeIdF t fid
       | none =>
         match closestTag t b ("a".data) with
         | some aid => removeIdF t aid
         | none => removeIdF t b) := by
    unfold imgStep
    rw [hfind]
    dsimp only
    rw [hsrc]
    dsimp only [Option.getD]
    rw [if_neg hne, hloc]
  have hpres : ∀ X : Nat,
      present (runSnap (removeIdF t X) post (imgStep m d)) X = false := by
    intro X
    have h1 : ¬(X ∈ idsF (removeIdF t X)) := removeIdF_not_mem t X
    have h2 : ¬(X ∈ idsF (runSnap (removeIdF t X) post (imgStep m d))) :=
      runSnap_not_mem (imgStep m d)
        (fun f i x hx => imgStep_ids_subset m d f i x hx)
        post (removeIdF t X) X h1
    cases hc : present (runSnap (removeIdF t X) post (imgStep m d)) X
    · rfl
    · exact absurd ((present_iff _ _).mp hc) h2
  refine ⟨⟨?_, ?_, ?_⟩, by decide⟩
  · intro fid hfig
    have hstep : imgStep m d t b = removeIdF t fid := by
      rw [hbase, hfig]
    have heq : runSnap t (b :: post) (imgStep m d)
        = runSnap (removeIdF t fid) post (imgStep m d) := by
      show runSnap (imgStep m d t b) post (imgStep m d) = _
      rw [hstep]
    exact ⟨heq, by rw [heq]; exact hpres fid⟩
  · intro hfig aid hac
    have hstep : imgStep m d t b = removeIdF t aid := by
      rw [hbase, hfig]
      dsimp only
      rw [hac]
    have heq : runSnap t (b :: post) (imgStep m d)
        = runSnap (removeIdF t aid) post (imgStep m d) := by
      show runSnap (imgStep m d t b) post (imgStep m d) = _
      rw [hstep]
    exact ⟨heq, by rw [heq]; exact hpres aid⟩
  · intro hfig hac
    have hstep : imgStep m d t b = removeIdF t b := by
      rw [hbase, hfig]
      dsimp only
      rw [hac]
    have heq : runSnap t (b :: post) (imgStep m d)
        = runSnap (removeIdF t b) post (imgStep m d) := by
      show runSnap (imgStep m d t b) post (imgStep m d) = _
      rw [hstep]
    exact ⟨heq, by rw [heq]; exact hpres b⟩

/-- Witness for C3: on the parsed sample fragment, the image (node 2)
has the unresolvable src, its closest figure is node 1, the image
iteration removes node 1 and it stays absent, and the cleaned output of
the sample is empty. -/
theorem unresolvable_image_removal_witness :
    closestTag (parseHtml figWrapSample) 2 ("figure".data) = some 1
    ∧ (runSnap (parseHtml figWrapSample) [2] (imgStep [] [])
         = runSnap (removeIdF (parseHtml figWrapSample) 1) [] (imgStep [] [])
       ∧ present (runSnap (parseHtml figWrapSample) [2] (imgStep [] [])) 1
           = false)
    ∧ cleanContentHtml figWrapSample [] [] = [] :=
  ⟨by decide,
   ((unresolvable_image_removal [] [] (parseHtml figWrapSample) 2 []
       ("img".data) [(("src".data), ("https://e/a.jpg".data))] HForest.nil
       ("https://e/a.jpg".data) (by rfl) (by rfl) (by decide)
       (by rfl)).1).1 1 (by rfl),
   (unresolvable_image_removal [] [] (parseHtml figWrapSample) 2 []
       ("img".data) [(("src".data), ("https://e/a.jpg".data))] HForest.nil
       ("https://e/a.jpg".data) (by rfl) (by rfl) (by decide)
       (by rfl)).2⟩

/-- C3 counterexample: the original claim fails for an image whose
share-widget ancestor is removed by the earlier phase — the input
contains an image with an unresolvable non-empty src wrapped in a
figure, yet the cleaned output still contains the figure, because the
share-widget phase detached the image before the image-fixing loop
snapshotted. -/
theorem unresolvable_image_removal_counterexample :
    findLocalImage ("https://e/a.jpg".data) [] [] = none
    ∧ cleanContentHtml figShareSample [] []
        = ("<figure>keep</figure>").data := by
  exact ⟨by decide, by decide⟩

theorem takeWhile_eq_self_of_all {α : Type} (p : α → Bool) :
    ∀ (l : List α), (∀ c ∈ l, p c = true) → l.takeWhile p = l := by
  intro l h
  induction l with
  | nil => rfl
  | cons c cs ih =>
    rw [List.takeWhile_cons, if_pos (h c (List.mem_cons_self c cs))]
    rw [ih (fun x hx => h x (List.mem_cons_of_mem c hx))]

theorem dropWhile_eq_nil_of_all {α : Type} (p : α → Bool) :
    ∀ (l : List α), (∀ c ∈ l, p c = true) → l.dropWhile p = [] := by
  intro l h
  induction l with
  | nil => rfl
  | cons c cs ih =>
    rw [List.dropWhile_cons, if_pos (h c (List.mem_cons_self c cs))]
    exact ih (fun x hx => h x (List.mem_cons_of_mem c hx))

theorem parseNodes_nil_input (fuel nid : Nat) :
    parseNodes (fuel + 1) nid [] = (.nil, nid, []) := rfl

theorem parseNodes_text (c : Char) (cs : Str) (nid : Nat)
    (hc : ¬(c = '<')) (hall : ∀ x ∈ cs, ¬(x = '<')) :
    parseNodes (cs.length + 1 + 1) nid (c :: cs)
      = (.cons (.text nid (c :: cs)) .nil, nid + 1, []) := by
  have hallc : ∀ x ∈ c :: cs, (decide (x ≠ '<')) = true := by
    intro x hx
    rcases List.mem_cons.mp hx with h1 | h1
    · subst h1; exact decide_eq_true hc
    · exact decide_eq_true (hall x h1)
  have hdrop : List.dropWhile (fun x => decide (x ≠ '<')) (c :: cs) = [] :=
    dropWhile_eq_nil_of_all _ (c :: cs) hallc
  simp only [parseNodes]
  split
  · rw [takeWhile_eq_self_of_all _ (c :: cs) hallc]
  · next rest heq =>
    rw [hdrop] at heq
    exact absurd heq (by simp)
  · next x heq =>
    rw [hdrop] at heq
    exact absurd heq (by simp)

theorem parse_text (s : Str) (hne : s ≠ []) (h : ∀ c ∈ s, ¬(c = '<')) :
    parseHtml s = .cons (.text 1 s) .nil := by
  cases s with
  | nil => exact absurd rfl hne
  | cons c cs =>
    have hc : ¬(c = '<') := h c (List.mem_cons_self c cs)
    have hall : ∀ x ∈ cs, ¬(x = '<') := fun x hx => h x (List.mem_cons_of_mem c hx)
    unfold parseHtml
    rw [List.length_cons]
    simp only [parseTop]
    rw [List.length_cons]
    rw [parseNodes_text c cs 1 hc hall]
    simp

theorem emptyElemPat_none (tg : Str) (wb : Bool) (c : Char) (cs : Str)
    (hc : ¬(c = '<')) : emptyElemPat tg wb (c :: cs) = none := by
  unfold emptyElemPat
  dsimp only
  have hsw : startsWith ('<' :: tg ++ [ '>' ]) (c :: cs) = false := by
    unfold startsWith
    simp only [List.cons_append, List.isPrefixOf]
    have hb : ('<' == c) = false := beq_eq_false_iff_ne.mpr (fun he => hc he.symm)
    rw [hb, Bool.false_and]
  rw [hsw]
  simp

theorem replaceMatchesFuel_no_match_id (m : Str → Option Nat) (rep : Str)
    (P : Char → Prop) (hm : ∀ c cs, P c → m (c :: cs) = none) :
    ∀ (fuel : Nat) (s : Str), (∀ c ∈ s, P c) →
      replaceMatchesFuel m rep fuel s = s := by
  intro fuel
  induction fuel with
  | zero => intro s hs; cases s <;> rfl
  | succ f ih =>
    intro s hs
    cases s with
    | nil => rfl
    | cons c cs =>
      simp only [replaceMatchesFuel]
      rw [hm c cs (hs c (List.mem_cons_self c cs))]
      rw [ih cs (fun x hx => hs x (List.mem_cons_of_mem c hx))]

theorem RM_emptyElemPat_id (tg : Str) (wb : Bool) (s : Str)
    (h : ∀ c ∈ s, ¬(c = '<')) :
    replaceMatches (emptyElemPat tg wb) [] s = s :=
  replaceMatchesFuel_no_match_id (emptyElemPat tg wb) [] (fun c => ¬(c = '<'))
    (fun c cs hc => emptyElemPat_none tg wb c cs hc) (s.length + 1) s h

theorem clean_markup_free (s : Str) (m : List (Str × Str)) (d : List Str)
    (hne : s ≠ []) (h : ∀ c ∈ s, ¬(c = '<')) :
    cleanContentHtml s m d
      = jsTrim (replaceMatches nlRunPat ("\n\n".data) s) := by
  unfold cleanContentHtml
  rw [if_neg hne]
  rw [parse_text s hne h]
  show jsTrim (finalCleanup (s ++ [])) = _
  rw [List.append_nil]
  unfold finalCleanup
  dsimp only
  rw [RM_emptyElemPat_id _ _ _ h, RM_emptyElemPat_id _ _ _ h,
      RM_emptyElemPat_id _ _ _ h, RM_emptyElemPat_id _ _ _ h]

theorem noTriple_cons_nl (k : Nat) (cs : Str) :
    noTriple k ('\n' :: cs) = (decide (k + 1 < 3) && noTriple (k + 1) cs) := by
  simp only [noTriple]
  rw [if_pos trivial]

theorem noTriple_cons_other (k : Nat) (c : Char) (cs : Str)
    (hc : ¬(c = '\n')) : noTriple k (c :: cs) = noTriple 0 cs := by
  simp only [noTriple]
  rw [if_neg hc]

theorem leadNl_cons_nl (cs : Str) : leadNl ('\n' :: cs) = leadNl cs + 1 := by
  unfold leadNl
  rw [List.takeWhile_cons]
  simp

theorem leadNl_cons_other (c : Char) (cs : Str) (hc : ¬(c = '\n')) :
    leadNl (c :: cs) = 0 := by
  unfold leadNl
  rw [List.takeWhile_cons]
  simp [hc]

theorem nlRunPat_eq (s : Str) :
    nlRunPat s = if leadNl s ≥ 3 then some (leadNl s) else none := rfl

theorem noTriple_mono : ∀ (s : Str) (k k' : Nat), k' ≤ k →
    noTriple k s = true → noTriple k' s = true := by
  intro s
  induction s with
  | nil => intro k k' hk h; rfl
  | cons c cs ih =>
    intro k k' hk h
    by_cases hc : c = '\n'
    · subst hc
      rw [noTriple_cons_nl] at h ⊢
      rcases Bool.and_eq_true_iff.mp h with ⟨h1, h2⟩
      have hk1 : k + 1 < 3 := of_decide_eq_true h1
      refine Bool.and_eq_true_iff.mpr ⟨decide_eq_true (by omega), ?_⟩
      exact ih (k + 1) (k' + 1) (by omega) h2
    · rw [noTriple_cons_other _ _ _ hc] at h ⊢
      exact h

theorem noTriple_head_bound : ∀ (s : Str) (k : Nat), noTriple k s = true →
    k + leadNl s ≤ 2 ∨ leadNl s = 0 := by
  intro s
  induction s with
  | nil => intro k h; right; rfl
  | cons c cs ih =>
    intro k h
    by_cases hc : c = '\n'
    · subst hc
      rw [noTriple_cons_nl] at h
      rcases Bool.and_eq_true_iff.mp h with ⟨h1, h2⟩
      have hk1 : k + 1 < 3 := of_decide_eq_true h1
      rw [leadNl_cons_nl]
      rcases ih (k + 1) h2 with h3 | h3 <;> omega
    · right; exact leadNl_cons_other c cs hc

theorem takeWhile_dropWhile_nil {α : Type} (p : α → Bool) :
    ∀ (l : List α), (l.dropWhile p).takeWhile p = [] := by
  intro l
  induction l with
  | nil => rfl
  | cons c cs ih =>
    rw [List.dropWhile_cons]
    by_cases hp : p c = true
    · rw [if_pos hp]; exact ih
    · rw [if_neg hp, List.takeWhile_cons, if_neg hp]

theorem leadNl_drop (s : Str) : leadNl (s.drop (leadNl s)) = 0 := by
  have h1 : s.drop (leadNl s) = s.dropWhile (fun c => decide (c = '\n')) := by
    unfold leadNl
    nth_rewrite 2 [← List.takeWhile_append_dropWhile (fun c => decide (c = '\n')) s]
    rw [List.drop_left]
  rw [h1]
  unfold leadNl
  rw [takeWhile_dropWhile_nil]
  rfl

theorem leadNl_le_length (s : Str) : leadNl s ≤ s.length :=
  (List.takeWhile_sublist _).length_le

theorem collapse_noTriple : ∀ (fuel : Nat) (s : Str) (k : Nat),
    s.length < fuel → (k = 0 ∨ k + leadNl s < 3) →
    noTriple k (replaceMatchesFuel nlRunPat ("\n\n".data) fuel s) = true := by
  intro fuel
  induction fuel with
  | zero => intro s k hl hk; omega
  | succ f ih =>
    intro s k hl hk
    cases s with
    | nil => rfl
    | cons c cs =>
      simp only [replaceMatchesFuel]
      rw [nlRunPat_eq]
      by_cases hr : leadNl (c :: cs) ≥ 3
      · rw [if_pos hr]
        dsimp only
        have hk0 : k = 0 := by
          rcases hk with h1 | h1
          · exact h1
          · omega
        subst hk0
        simp only [List.cons_append, List.nil_append]
        rw [noTriple_cons_nl, noTriple_cons_nl]
        have hlen : ((c :: cs).drop (leadNl (c :: cs))).length < f := by
          rw [List.length_drop]
          have h2 : leadNl (c :: cs) ≤ (c :: cs).length := leadNl_le_length _
          have h3 : (c :: cs).length < f + 1 := hl
          have h4 : (0 : Nat) < (c :: cs).length := by simp
          omega
        have hrec := ih ((c :: cs).drop (leadNl (c :: cs))) 2 hlen
          (Or.inr (by rw [leadNl_drop]; omega))
        simp only [Bool.and_eq_true]
        exact ⟨by decide, by decide, hrec⟩
      · rw [if_neg hr]
        dsimp only
        have hlen : cs.length < f := by
          have : (c :: cs).length < f + 1 := hl
          rw [List.length_cons] at this
          omega
        by_cases hc : c = '\n'
        · subst hc
          rw [noTriple_cons_nl]
          have hl1 : leadNl ('\n' :: cs) = leadNl cs + 1 := leadNl_cons_nl cs
          have hk1 : k + 1 < 3 := by
            rcases hk with h1 | h1 <;> omega
          have hrec := ih cs (k + 1) hlen (Or.inr (by omega))
          rw [hrec, decide_eq_true hk1]
          rfl
        · rw [noTriple_cons_other _ _ _ hc]
          exact ih cs 0 hlen (Or.inl rfl)

theorem collapse_id : ∀ (fuel : Nat) (s : Str), noTriple 0 s = true →
    replaceMatchesFuel nlRunPat ("\n\n".data) fuel s = s := by
  intro fuel
  induction fuel with
  | zero => intro s h; cases s <;> rfl
  | succ f ih =>
    intro s h
    cases s with
    | nil => rfl
    | cons c cs =>
      simp only [replaceMatchesFuel]
      rw [nlRunPat_eq]
      have hlt : ¬(leadNl (c :: cs) ≥ 3) := by
        rcases noTriple_head_bound (c :: cs) 0 h with h1 | h1 <;> omega
      rw [if_neg hlt]
      dsimp only
      have hcs : noTriple 0 cs = true := by
        by_cases hc : c = '\n'
        · subst hc
          rw [noTriple_cons_nl] at h
          exact noTriple_mono cs 1 0 (by omega)
            (Bool.and_eq_true_iff.mp h).2
        · rw [noTriple_cons_other _ _ _ hc] at h
          exact h
      rw [ih cs hcs]

theorem noTriple_tail (c : Char) (cs : Str)
    (h : noTriple 0 (c :: cs) = true) : noTriple 0 cs = true := by
  by_cases hc : c = '\n'
  · subst hc
    rw [noTriple_cons_nl] at h
    exact noTriple_mono cs 1 0 (by omega) (Bool.and_eq_true_iff.mp h).2
  · rw [noTriple_cons_other _ _ _ hc] at h
    exact h

theorem noTriple_suffix : ∀ (s l : Str), l <:+ s →
    noTriple 0 s = true → noTriple 0 l = true := by
  intro s
  induction s with
  | nil =>
    intro l hl h
    rw [List.suffix_nil.mp hl]
    exact h
  | cons c cs ih =>
    intro l hl h
    rcases List.suffix_cons_iff.mp hl with h1 | h1
    · rw [h1]; exact h
    · exact ih l h1 (noTriple_tail c cs h)

theorem noTriple_append_left : ∀ (a b : Str) (k : Nat),
    noTriple k (a ++ b) = true → noTriple k a = true := by
  intro a
  induction a with
  | nil => intro b k h; rfl
  | cons c cs ih =>
    intro b k h
    rw [List.cons_append] at h
    by_cases hc : c = '\n'
    · subst hc
      rw [noTriple_cons_nl] at h ⊢
      rcases Bool.and_eq_true_iff.mp h with ⟨h1, h2⟩
      exact Bool.and_eq_true_iff.mpr ⟨h1, ih b (k + 1) h2⟩
    · rw [noTriple_cons_other _ _ _ hc] at h ⊢
      exact ih b 0 h

theorem noTriple_jsTrim (s : Str) (h : noTriple 0 s = true) :
    noTriple 0 (jsTrim s) = true := by
  unfold jsTrim
  have h1 : noTriple 0 (s.dropWhile isJsWs) = true :=
    noTriple_suffix s _ (List.dropWhile_suffix _) h
  have h2 : ((s.dropWhile isJsWs).reverse.dropWhile isJsWs)
      <:+ (s.dropWhile isJsWs).reverse := List.dropWhile_suffix _
  rw [← List.reverse_reverse ((s.dropWhile isJsWs).reverse.dropWhile isJsWs)]
    at h2
  have h3 := List.reverse_suffix.mp h2
  obtain ⟨w, hw⟩ := h3
  rw [← hw] at h1
  exact noTriple_append_left _ w 0 h1

theorem dropWhile_dropWhile {α : Type} (p : α → Bool) :
    ∀ (l : List α), (l.dropWhile p).dropWhile p = l.dropWhile p := by
  intro l
  induction l with
  | nil => rfl
  | cons c cs ih =>
    rw [List.dropWhile_cons]
    by_cases hp : p c = true
    · rw [if_pos hp]; exact ih
    · rw [if_neg hp, List.dropWhile_cons, if_neg hp]

theorem head_dropWhile_false {α : Type} (p : α → Bool) :
    ∀ (l : List α) (c : α) (cs : List α),
      l.dropWhile p = c :: cs → p c = false := by
  intro l
  induction l with
  | nil => intro c cs h; exact absurd h (by simp)
  | cons x xs ih =>
    intro c cs h
    rw [List.dropWhile_cons] at h
    by_cases hp : p x = true
    · rw [if_pos hp] at h; exact ih c cs h
    · rw [if_neg hp] at h
      have hx : x = c := (List.cons.inj h).1
      subst hx
      exact Bool.eq_false_iff.mpr hp

theorem jsTrim_idem (s : Str) : jsTrim (jsTrim s) = jsTrim s := by
  unfold jsTrim
  have hvv : (((s.dropWhile isJsWs).reverse.dropWhile isJsWs).dropWhile isJsWs)
      = (s.dropWhile isJsWs).reverse.dropWhile isJsWs :=
    dropWhile_dropWhile isJsWs _
  have ha : (((s.dropWhile isJsWs).reverse.dropWhile isJsWs).reverse.dropWhile
      isJsWs) = ((s.dropWhile isJsWs).reverse.dropWhile isJsWs).reverse := by
    cases hvr : ((s.dropWhile isJsWs).reverse.dropWhile isJsWs).reverse with
    | nil => rfl
    | cons c cs =>
      have h2 : ((s.dropWhile isJsWs).reverse.dropWhile isJsWs)
          <:+ (s.dropWhile isJsWs).reverse := List.dropWhile_suffix _
      rw [← List.reverse_reverse ((s.dropWhile isJsWs).reverse.dropWhile isJsWs)]
        at h2
      have h3 := List.reverse_suffix.mp h2
      obtain ⟨w, hw⟩ := h3
      rw [hvr] at hw
      have hs1 : s.dropWhile isJsWs = c :: (cs ++ w) := by
        rw [← hw]; simp
      have hpc : isJsWs c = false := head_dropWhile_false isJsWs s c (cs ++ w) hs1
      rw [List.dropWhile_cons, if_neg (by rw [hpc]; simp)]
  rw [ha, List.reverse_reverse, hvv]

theorem mem_replaceMatchesFuel (m : Str → Option Nat) (rep : Str) :
    ∀ (fuel : Nat) (s : Str) (x : Char),
      x ∈ replaceMatchesFuel m rep fuel s → x ∈ s ∨ x ∈ rep := by
  intro fuel
  induction fuel with
  | zero =>
    intro s x hx
    cases s with
    | nil => exact absurd hx (by simp [replaceMatchesFuel])
    | cons c cs => exact Or.inl hx
  | succ f ih =>
    intro s x hx
    cases s with
    | nil => exact absurd hx (by simp [replaceMatchesFuel])
    | cons c cs =>
      simp only [replaceMatchesFuel] at hx
      cases hm : m (c :: cs) with
      | some n =>
        rw [hm] at hx
        dsimp only at hx
        rcases List.mem_append.mp hx with h1 | h1
        · exact Or.inr h1
        · rcases ih _ x h1 with h2 | h2
          · exact Or.inl (List.mem_of_mem_drop h2)
          · exact Or.inr h2
      | none =>
        rw [hm] at hx
        dsimp only at hx
        rcases List.mem_cons.mp hx with h1 | h1
        · exact Or.inl (h1 ▸ List.mem_cons_self c cs)
        · rcases ih cs x h1 with h2 | h2
          · exact Or.inl (List.mem_cons_of_mem c h2)
          · exact Or.inr h2

theorem mem_jsTrim (s : Str) (x : Char) (hx : x ∈ jsTrim s) : x ∈ s := by
  unfold jsTrim at hx
  rw [List.mem_reverse] at hx
  have h1 := List.Sublist.mem hx (List.dropWhile_sublist _)
  rw [List.mem_reverse] at h1
  exact List.Sublist.mem h1 (List.dropWhile_sublist _)

theorem collapse_replaceMatches_id (s : Str) (h : noTriple 0 s = true) :
    replaceMatches nlRunPat ("\n\n".data) s = s := collapse_id _ s h

/-- C2 (amended): content cleaning is idempotent on markup-free fragments
(no occurrence of the character <): for such a fragment the pipeline
reduces to collapsing runs of three or more newlines to two and trimming,
and re-running it on the output changes nothing.  On fragments with
markup the function is not idempotent — see the counterexample, where an
attributed paragraph emptied by the image phase escapes the literal
empty-paragraph regex on the first pass and is removed only on the
second. -/
theorem cleanContentHtml_idempotent_markup_free
    (s : Str) (m : List (Str × Str)) (d : List Str)
    (h : ∀ c ∈ s, ¬(c = '<')) :
    cleanContentHtml (cleanContentHtml s m d) m d = cleanContentHtml s m d := by
  by_cases hne : s = []
  · subst hne; rfl
  · rw [clean_markup_free s m d hne h]
    have hmem : ∀ c ∈ jsTrim (replaceMatches nlRunPat ("\n\n".data) s),
        ¬(c = '<') := by
      intro c hc
      have h1 := mem_jsTrim _ c hc
      unfold replaceMatches at h1
      rcases mem_replaceMatchesFuel nlRunPat ("\n\n".data) _ s c h1 with h2 | h2
      · exact h c h2
      · intro he; subst he; exact absurd h2 (by decide)
    have htri : noTriple 0 (jsTrim (replaceMatches nlRunPat ("\n\n".data) s))
        = true := by
      apply noTriple_jsTrim
      unfold replaceMatches
      exact collapse_noTriple (s.length + 1) s 0 (by omega) (Or.inl rfl)
    by_cases hte : jsTrim (replaceMatches nlRunPat ("\n\n".data) s) = []
    · rw [hte]; rfl
    · rw [clean_markup_free _ m d hte hmem]
      rw [collapse_replaceMatches_id _ htri]
      exact jsTrim_idem _


/-- Witness for C2: a markup-free fragment with a four-newline run cleans
to the same result twice. -/
theorem cleanContentHtml_idempotent_markup_free_witness :
    cleanContentHtml (cleanContentHtml ("a\n\n\n\nb".data) [] []) [] []
      = cleanContentHtml ("a\n\n\n\nb".data) [] [] :=
  cleanContentHtml_idempotent_markup_free ("a\n\n\n\nb".data) [] []
    (by decide)

/-- C2 counterexample: cleaning is not idempotent in general — an
attributed paragraph whose only child image is removed as unresolvable
survives the first pass (the final regex only removes literal attribute-free
empty paragraphs), but the second pass removes the now-empty paragraph in
the empty-element phase. -/
theorem cleanContentHtml_not_idempotent :
    cleanContentHtml
        ("<p class=\"x\"><img src=\"http://e/a.jpg\"></p>").data [] []
      = ("<p class=\"x\"></p>").data
    ∧ cleanContentHtml (("<p class=\"x\"></p>").data) [] [] = []
    ∧ cleanContentHtml
        (cleanContentHtml
          ("<p class=\"x\"><img src=\"http://e/a.jpg\"></p>").data [] [])
        [] []
      ≠ cleanContentHtml
          ("<p class=\"x\"><img src=\"http://e/a.jpg\"></p>").data [] [] := by
  exact ⟨by decide, by decide, by decide⟩
